import Mathlib

/-!
Verification of the bibtex-to-manubot identifier-resolution and deduplication
engine.  The Python sources (converter.py, models.py, utils.py) are embedded
shallowly: strings become `List Char`/`String`, regular-expression cascades are
compiled to values of a small regex AST with a backtracking matcher mirroring
CPython `re` semantics (leftmost match, greedy quantifiers with backtracking,
optional IGNORECASE), `None`-returning functions become `Option`-valued
definitions, and exception paths become `Except`.
-/

namespace B2M

/-! ## Python character classes and string helpers -/

/-- Whitespace characters recognised by Python `str.strip` and the regex
class `\s` (ASCII range, which covers all inputs considered here). -/
def pySpace (c : Char) : Bool :=
  c = ' ' || c = '\t' || c = '\n' || c = '\r' || c = '\x0b' || c = '\x0c'

/-- Digit characters, the regex class `\d` (ASCII range). -/
def pyDigit (c : Char) : Bool := '0' ≤ c && c ≤ '9'

/-- Word characters, the regex class `\w` (ASCII range). -/
def pyWord (c : Char) : Bool := pyDigit c || c.isAlpha || c = '_'

/-- Drops trailing characters satisfying `f` (helper for `str.strip` and for
the trailing-punctuation cleanup in `extract_doi`). -/
def dropTrailing (f : Char → Bool) (l : List Char) : List Char :=
  (l.reverse.dropWhile f).reverse

/-- Python `str.strip()` on a character list. -/
def stripL (l : List Char) : List Char :=
  dropTrailing pySpace (l.dropWhile pySpace)

/-- Python `str.strip()` on a string. -/
def pyStrip (s : String) : String := String.mk (stripL s.data)

/-- Python `str.isdigit()` on a character list: non-empty and all digits. -/
def pyIsdigit (l : List Char) : Bool := !l.isEmpty && l.all pyDigit

/-- Numeric value of a digit list (most significant first). -/
def digitsVal (l : List Char) : Nat :=
  l.foldl (fun acc c => 10 * acc + (c.toNat - 48)) 0

/-! ## Regex AST

Each Python pattern used by the source is transcribed to a value of this AST.
Quantifiers are greedy; the matcher backtracks exactly as CPython `re` does
(longest alternative first, leftmost overall match).  `litCI` models a literal
compiled under `re.IGNORECASE`. -/

inductive RE where
  | eps
  | lit (c : Char)
  | litCI (c : Char)
  | cls (f : Char → Bool)
  | seq (a b : RE)
  | alt (a b : RE)
  | opt (a : RE)
  | manyCls (f : Char → Bool)
  | many1Cls (f : Char → Bool)
  | repCls (f : Char → Bool) (lo hi : Nat)
  | eol

/-- Sequencing of a list of regexes. -/
def reSeq (l : List RE) : RE := l.foldr RE.seq RE.eps

/-- Case-sensitive literal string. -/
def strLit (s : String) : RE := reSeq (s.data.map RE.lit)

/-- Case-insensitive literal string (pattern compiled with `re.IGNORECASE`). -/
def strLitCI (s : String) : RE := reSeq (s.data.map RE.litCI)

/-- Length of the longest prefix of `s` whose characters satisfy `f`:
the number of characters a greedy class quantifier can consume. -/
def clsRun (f : Char → Bool) (s : List Char) : Nat := (s.takeWhile f).length

/-- Candidate consumption counts for a greedy class quantifier, largest
first: `hi, hi-1, ..., lo` (empty when `hi < lo`). -/
def downList (lo hi : Nat) : List Nat :=
  (List.range (hi + 1 - lo)).map (fun i => hi - i)

/-- Backtracking matcher in continuation-passing style.  `mtch re s k`
matches `re` against a prefix of `s` and feeds the unconsumed suffix to `k`,
trying alternatives in exactly the preference order of CPython `re`
(greedy quantifiers longest-first); the first success wins. -/
def mtch : RE → List Char → (List Char → Option (List Char)) → Option (List Char)
  | .eps, s, k => k s
  | .lit c, s, k =>
    match s with
    | [] => none
    | a :: rest => if a = c then k rest else none
  | .litCI c, s, k =>
    match s with
    | [] => none
    | a :: rest => if a.toLower = c.toLower then k rest else none
  | .cls f, s, k =>
    match s with
    | [] => none
    | a :: rest => if f a then k rest else none
  | .seq a b, s, k => mtch a s (fun s1 => mtch b s1 k)
  | .alt a b, s, k => (mtch a s k).orElse (fun _ => mtch b s k)
  | .opt a, s, k => (mtch a s k).orElse (fun _ => k s)
  | .manyCls f, s, k =>
    (downList 0 (clsRun f s)).findSome? (fun i => k (s.drop i))
  | .many1Cls f, s, k =>
    (downList 1 (clsRun f s)).findSome? (fun i => k (s.drop i))
  | .repCls f lo hi, s, k =>
    (downList lo (min hi (clsRun f s))).findSome? (fun i => k (s.drop i))
  | .eol, s, k => if s = [] || s = ['\n'] then k s else none

/-- Compiled pattern: every pattern in the source has the shape
(non-capturing part, capture group 1, trailing part), optionally anchored at
the start (`^`).  A trailing `$` is expressed with `RE.eol` in `post`. -/
structure Pat where
  pre : RE
  grp : RE
  post : RE
  anchored : Bool

/-- Attempts a match of `p` starting exactly at the head of `s`, returning
the text consumed by the capture group of the preferred match. -/
def tryPatAt (p : Pat) (s : List Char) : Option (List Char) :=
  mtch p.pre s fun s1 =>
    mtch p.grp s1 fun s2 =>
      mtch p.post s2 fun _ => some (s1.take (s1.length - s2.length))

/-- Scans start positions left to right (the leftmost-match rule of
`re.search`). -/
def scanFrom (p : Pat) : List Char → Option (List Char)
  | [] => tryPatAt p []
  | c :: rest => (tryPatAt p (c :: rest)).orElse (fun _ => scanFrom p (rest))

/-- Embedding of `re.search(pattern, s)`, returning `match.group(1)`.
An anchored pattern (leading `^`, no MULTILINE flag) can only match at the
start of the text. -/
def reSearch (p : Pat) (s : List Char) : Option (List Char) :=
  if p.anchored then tryPatAt p s else scanFrom p s

/-- Boolean form, for validators that test `bool(re.match(...))`. -/
def reTest (p : Pat) (s : List Char) : Bool := (reSearch p s).isSome

/-! ## Language of a regex and soundness of the matcher -/

/-- Set of character lists a regex can consume.  Used to reason about what a
capture group may contain; `eol` consumes nothing. -/
def Lang : RE → List Char → Prop
  | .eps, t => t = []
  | .lit c, t => t = [c]
  | .litCI c, t => ∃ a, t = [a] ∧ a.toLower = c.toLower
  | .cls f, t => ∃ a, t = [a] ∧ f a
  | .seq a b, t => ∃ t1 t2, t = t1 ++ t2 ∧ Lang a t1 ∧ Lang b t2
  | .alt a b, t => Lang a t ∨ Lang b t
  | .opt a, t => Lang a t ∨ t = []
  | .manyCls f, t => ∀ c ∈ t, f c
  | .many1Cls f, t => t ≠ [] ∧ ∀ c ∈ t, f c
  | .repCls f lo hi, t => lo ≤ t.length ∧ t.length ≤ hi ∧ ∀ c ∈ t, f c
  | .eol, t => t = []

theorem findSome_mem {α β : Type} {l : List α} {k : α → Option β} {r : β}
    (h : l.findSome? k = some r) : ∃ i ∈ l, k i = some r := by
  obtain ⟨a, ha, hka⟩ := List.exists_of_findSome?_eq_some h
  exact ⟨a, ha, hka⟩

theorem clsRun_le (f : Char → Bool) (s : List Char) : clsRun f s ≤ s.length := by
  induction s with
  | nil => simp [clsRun]
  | cons a rest ih =>
    by_cases hfa : f a
    · simpa [clsRun, List.takeWhile_cons, hfa] using
        Nat.succ_le_succ (by simpa [clsRun] using ih)
    · simp [clsRun, List.takeWhile_cons, hfa]

theorem downList_le {lo hi i : Nat} (h : i ∈ downList lo hi) : i ≤ hi := by
  simp only [downList, List.mem_map, List.mem_range] at h
  obtain ⟨j, _, rfl⟩ := h
  omega

theorem downList_ge {lo hi i : Nat} (h : i ∈ downList lo hi) : lo ≤ i := by
  simp only [downList, List.mem_map, List.mem_range] at h
  obtain ⟨j, hj, rfl⟩ := h
  omega

theorem take_all_of_le_clsRun {f : Char → Bool} {s : List Char} {i : Nat}
    (h : i ≤ clsRun f s) : ∀ c ∈ s.take i, f c := by
  induction s generalizing i with
  | nil => simp
  | cons a rest ih =>
    cases i with
    | zero => simp
    | succ j =>
      simp only [clsRun, List.takeWhile] at h
      cases hfa : f a with
      | false => simp [hfa] at h
      | true =>
        simp only [hfa, List.length_cons] at h
        intro c hc
        simp only [List.take_succ_cons, List.mem_cons] at hc
        rcases hc with rfl | hc
        · exact hfa
        · exact ih (Nat.le_of_succ_le_succ h) c hc

theorem orElse_cases {x : Option (List Char)} {y : Unit → Option (List Char)}
    {r : List Char} (h : x.orElse y = some r) : x = some r ∨ (x = none ∧ y () = some r) := by
  cases x with
  | some v => left; exact h
  | none => right; exact ⟨rfl, h⟩

/-- Soundness of the matcher: a successful match decomposes the input into a
consumed prefix in the language of the regex and a suffix accepted by the
continuation. -/
theorem mtch_sound {re : RE} :
    ∀ {s : List Char} {k : List Char → Option (List Char)} {r : List Char},
      mtch re s k = some r → ∃ t u, s = t ++ u ∧ Lang re t ∧ k u = some r := by
  induction re with
  | eps => intro s k r h; exact ⟨[], s, rfl, rfl, h⟩
  | lit c =>
    intro s k r h
    match s with
    | [] => simp [mtch] at h
    | a :: rest =>
      simp only [mtch] at h
      by_cases hac : a = c
      · subst hac; simp only [if_pos rfl] at h
        exact ⟨[a], rest, rfl, rfl, h⟩
      · simp [hac] at h
  | litCI c =>
    intro s k r h
    match s with
    | [] => simp [mtch] at h
    | a :: rest =>
      simp only [mtch] at h
      by_cases hac : a.toLower = c.toLower
      · simp only [if_pos hac] at h
        exact ⟨[a], rest, rfl, ⟨a, rfl, hac⟩, h⟩
      · simp [hac] at h
  | cls f =>
    intro s k r h
    match s with
    | [] => simp [mtch] at h
    | a :: rest =>
      simp only [mtch] at h
      by_cases hfa : f a
      · simp only [if_pos hfa] at h
        exact ⟨[a], rest, rfl, ⟨a, rfl, hfa⟩, h⟩
      · simp [hfa] at h
  | seq a b iha ihb =>
    intro s k r h
    simp only [mtch] at h
    obtain ⟨t1, u1, rfl, hl1, hk1⟩ := iha h
    obtain ⟨t2, u2, rfl, hl2, hk2⟩ := ihb hk1
    exact ⟨t1 ++ t2, u2, by simp, ⟨t1, t2, rfl, hl1, hl2⟩, hk2⟩
  | alt a b iha ihb =>
    intro s k r h
    simp only [mtch] at h
    rcases orElse_cases h with h1 | ⟨_, h2⟩
    · obtain ⟨t, u, rfl, hl, hk⟩ := iha h1
      exact ⟨t, u, rfl, Or.inl hl, hk⟩
    · obtain ⟨t, u, rfl, hl, hk⟩ := ihb h2
      exact ⟨t, u, rfl, Or.inr hl, hk⟩
  | opt a iha =>
    intro s k r h
    simp only [mtch] at h
    rcases orElse_cases h with h1 | ⟨_, h2⟩
    · obtain ⟨t, u, rfl, hl, hk⟩ := iha h1
      exact ⟨t, u, rfl, Or.inl hl, hk⟩
    · exact ⟨[], s, rfl, Or.inr rfl, h2⟩
  | manyCls f =>
    intro s k r h
    simp only [mtch] at h
    obtain ⟨i, hi, hki⟩ := findSome_mem h
    refine ⟨s.take i, s.drop i, (s.take_append_drop i).symm, ?_, hki⟩
    exact take_all_of_le_clsRun (downList_le hi)
  | many1Cls f =>
    intro s k r h
    simp only [mtch] at h
    obtain ⟨i, hi, hki⟩ := findSome_mem h
    have h1 : 1 ≤ i := downList_ge hi
    have hle : i ≤ clsRun f s := downList_le hi
    refine ⟨s.take i, s.drop i, (s.take_append_drop i).symm, ⟨?_, take_all_of_le_clsRun hle⟩, hki⟩
    have hlen : (s.take i).length = min i s.length := s.length_take i
    intro hemp
    rw [hemp] at hlen
    simp only [List.length_nil] at hlen
    have : clsRun f s ≤ s.length := clsRun_le f s
    omega
  | repCls f lo hi =>
    intro s k r h
    simp only [mtch] at h
    obtain ⟨i, hmem, hki⟩ := findSome_mem h
    have hlo : lo ≤ i := downList_ge hmem
    have hle : i ≤ min hi (clsRun f s) := downList_le hmem
    have hrun : clsRun f s ≤ s.length := clsRun_le f s
    refine ⟨s.take i, s.drop i, (s.take_append_drop i).symm, ⟨?_, ?_, take_all_of_le_clsRun (le_trans hle (min_le_right _ _))⟩, hki⟩
    · have : (s.take i).length = min i s.length := s.length_take i
      omega
    · have : (s.take i).length = min i s.length := s.length_take i
      omega
  | eol =>
    intro s k r h
    simp only [mtch] at h
    by_cases hs : s = [] || s = ['\n']
    · exact ⟨[], s, rfl, rfl, by simpa [hs] using h⟩
    · simp [hs] at h

/-- Capture soundness at a fixed start position: the returned capture lies in
the language of the pattern's group. -/
theorem tryPatAt_sound {p : Pat} {s cap : List Char}
    (h : tryPatAt p s = some cap) : Lang p.grp cap := by
  unfold tryPatAt at h
  obtain ⟨t1, u1, _, _, hk1⟩ := mtch_sound h
  obtain ⟨t2, u2, hu1, hl2, hk2⟩ := mtch_sound hk1
  obtain ⟨t3, u3, _, _, hk3⟩ := mtch_sound hk2
  have hcap : cap = u1.take (u1.length - u2.length) := by
    simpa using hk3.symm
  subst hu1
  have : (t2 ++ u2).length - u2.length = t2.length := by simp
  rw [hcap, this, List.take_left]
  exact hl2

theorem scanFrom_sound {p : Pat} :
    ∀ {s cap : List Char}, scanFrom p s = some cap → Lang p.grp cap := by
  intro s
  induction s with
  | nil => intro cap h; exact tryPatAt_sound (by simpa [scanFrom] using h)
  | cons c rest ih =>
    intro cap h
    simp only [scanFrom] at h
    rcases orElse_cases h with h1 | ⟨_, h2⟩
    · exact tryPatAt_sound h1
    · exact ih h2

/-- Soundness of `re.search` capture extraction. -/
theorem reSearch_sound {p : Pat} {s cap : List Char}
    (h : reSearch p s = some cap) : Lang p.grp cap := by
  unfold reSearch at h
  by_cases ha : p.anchored
  · exact tryPatAt_sound (by simpa [ha] using h)
  · exact scanFrom_sound (by simpa [ha] using h)

/-- Predicate stating that every character a regex can consume satisfies
`P`. -/
def REChars (P : Char → Prop) : RE → Prop
  | .eps => True
  | .lit c => P c
  | .litCI c => ∀ a : Char, a.toLower = c.toLower → P a
  | .cls f => ∀ a, f a → P a
  | .seq a b => REChars P a ∧ REChars P b
  | .alt a b => REChars P a ∧ REChars P b
  | .opt a => REChars P a
  | .manyCls f => ∀ a, f a → P a
  | .many1Cls f => ∀ a, f a → P a
  | .repCls f _ _ => ∀ a, f a → P a
  | .eol => True

theorem Lang_chars {P : Char → Prop} {re : RE} (hre : REChars P re) :
    ∀ {t : List Char}, Lang re t → ∀ c ∈ t, P c := by
  induction re with
  | eps => intro t ht c hc; rw [show t = [] from ht] at hc; simp at hc
  | lit d =>
    intro t ht c hc
    rw [show t = [d] from ht] at hc
    simp only [List.mem_singleton] at hc
    exact hc ▸ hre
  | litCI d =>
    intro t ht c hc
    obtain ⟨a, rfl, hal⟩ := ht
    simp only [List.mem_singleton] at hc
    exact hc ▸ hre a hal
  | cls f =>
    intro t ht c hc
    obtain ⟨a, rfl, hfa⟩ := ht
    simp only [List.mem_singleton] at hc
    exact hc ▸ hre a hfa
  | seq a b iha ihb =>
    intro t ht c hc
    obtain ⟨t1, t2, rfl, h1, h2⟩ := ht
    rcases List.mem_append.mp hc with hc1 | hc2
    · exact iha hre.1 h1 c hc1
    · exact ihb hre.2 h2 c hc2
  | alt a b iha ihb =>
    intro t ht c hc
    rcases ht with h1 | h2
    · exact iha hre.1 h1 c hc
    · exact ihb hre.2 h2 c hc
  | opt a iha =>
    intro t ht c hc
    rcases ht with h1 | rfl
    · exact iha hre h1 c hc
    · simp at hc
  | manyCls f => intro t ht c hc; exact hre c (ht c hc)
  | many1Cls f => intro t ht c hc; exact hre c (ht.2 c hc)
  | repCls f lo hi => intro t ht c hc; exact hre c (ht.2.2 c hc)
  | eol => intro t ht c hc; rw [show t = [] from ht] at hc; simp at hc

/-! ## Character classes appearing in the source patterns -/

/-- Class `[^\s,}]` from the DOI capture group. -/
def nonSpaceCommaBrace (c : Char) : Bool := !pySpace c && c ≠ ',' && c ≠ '\x7d'

/-- Class `[^\s]` (equivalently `\S`) from the DOI validator. -/
def nonSpace (c : Char) : Bool := !pySpace c

/-- Class `[\d.]` from the arXiv capture group. -/
def digitDot (c : Char) : Bool := pyDigit c || c = '.'

/-- Class `[\dX]` as compiled under `re.IGNORECASE` (also matches `x`). -/
def digitOrXCI (c : Char) : Bool := pyDigit c || c = 'X' || c = 'x'

/-- Class `[a-z-]` as compiled under `re.IGNORECASE` (both cases match). -/
def lowerDashCI (c : Char) : Bool := c.isAlpha || c = '-'

/-- Class `[A-Z]` as compiled under `re.IGNORECASE` (both cases match). -/
def upperAlphaCI (c : Char) : Bool := c.isAlpha

/-- Class `[a-z-]` compiled without flags (arXiv validator). -/
def lowerDash (c : Char) : Bool := ('a' ≤ c && c ≤ 'z') || c = '-'

/-- Class `[A-Z]` compiled without flags (arXiv validator). -/
def upperAlpha (c : Char) : Bool := 'A' ≤ c && c ≤ 'Z'

/-- Class `[,;.\s]` from the trailing-punctuation cleanup in `extract_doi`. -/
def trailPunct (c : Char) : Bool := c = ',' || c = ';' || c = '.' || pySpace c

/-! ## DOI extraction (`utils.extract_doi`, `utils.validate_doi`) -/

/-- Capture group `(10\.\d+/[^\s,}]+)` shared by all four DOI patterns. -/
def doiCaptureRE : RE :=
  reSeq [strLit "10.", .many1Cls pyDigit, .lit '/', .many1Cls nonSpaceCommaBrace]

/-- Pattern `(?:doi:)\s*(10\.\d+/[^\s,}]+)` with IGNORECASE. -/
def doiPat1 : Pat :=
  ⟨reSeq [strLitCI "doi:", .manyCls pySpace], doiCaptureRE, .eps, false⟩

/-- Pattern `(?:https?://(?:dx\.)?doi\.org/)(10\.\d+/[^\s,}]+)` with IGNORECASE. -/
def doiPat2 : Pat :=
  ⟨reSeq [strLitCI "http", .opt (.litCI 's'), strLit "://", .opt (strLitCI "dx."),
      strLitCI "doi.org/"], doiCaptureRE, .eps, false⟩

/-- Pattern `^(10\.\d+/[^\s,}]+)$`. -/
def doiPat3 : Pat := ⟨.eps, doiCaptureRE, .eol, true⟩

/-- Pattern `(10\.\d+/[^\s,}]+)` anywhere in the text. -/
def doiPat4 : Pat := ⟨.eps, doiCaptureRE, .eps, false⟩

/-- Body of the DOI validation regex `^10\.\d{4,}/[^\s]+$`. -/
def doiBodyRE : RE :=
  reSeq [strLit "10.", .repCls pyDigit 4 4, .manyCls pyDigit, .lit '/', .many1Cls nonSpace]

def validateDoiPat : Pat := ⟨.eps, doiBodyRE, .eol, true⟩

/-- Embedding of `utils.validate_doi`. -/
def validate_doi (doi : String) : Bool :=
  if doi = "" then false else reTest validateDoiPat (stripL doi.data)

/-- One iteration of the pattern loop in `extract_doi`: search, strip the
trailing `[,;.\s]+` run, keep the result only if it validates. -/
def doiFromPat (p : Pat) (t : List Char) : Option String :=
  match reSearch p t with
  | some cap =>
    let doi := dropTrailing trailPunct cap
    if validate_doi (String.mk doi) then some (String.mk doi) else none
  | none => none

/-- Embedding of `utils.extract_doi`. -/
def extract_doi (text : String) : Option String :=
  if text = "" then none
  else
    let t := stripL text.data
    (doiFromPat doiPat1 t).orElse fun _ =>
      (doiFromPat doiPat2 t).orElse fun _ =>
        (doiFromPat doiPat3 t).orElse fun _ => doiFromPat doiPat4 t

/-! ## PMID extraction (`utils.extract_pmid`) -/

/-- Pattern `(?:pmid:?)\s*(\d+)` with IGNORECASE. -/
def pmidPat1 : Pat :=
  ⟨reSeq [strLitCI "pmid", .opt (.lit ':'), .manyCls pySpace], .many1Cls pyDigit, .eps, false⟩

/-- Pattern `(?:pubmed\s*id:?)\s*(\d+)` with IGNORECASE. -/
def pmidPat2 : Pat :=
  ⟨reSeq [strLitCI "pubmed", .manyCls pySpace, strLitCI "id", .opt (.lit ':'),
      .manyCls pySpace], .many1Cls pyDigit, .eps, false⟩

/-- Pattern `(?:pubmed:?)\s*(\d+)` with IGNORECASE. -/
def pmidPat3 : Pat :=
  ⟨reSeq [strLitCI "pubmed", .opt (.lit ':'), .manyCls pySpace], .many1Cls pyDigit, .eps, false⟩

/-- Pattern `^(\d{7,8})$`. -/
def pmidPat4 : Pat := ⟨.eps, .repCls pyDigit 7 8, .eol, true⟩

/-- Validation applied inside the loop: `pmid.isdigit() and 7 <= len(pmid) <= 8`. -/
def pmidValid (l : List Char) : Bool := pyIsdigit l && 7 ≤ l.length && l.length ≤ 8

def pmidFromPat (p : Pat) (t : List Char) : Option String :=
  match reSearch p t with
  | some cap => if pmidValid cap then some (String.mk cap) else none
  | none => none

/-- Embedding of `utils.extract_pmid`. -/
def extract_pmid (text : String) : Option String :=
  if text = "" then none
  else
    let t := stripL text.data
    (pmidFromPat pmidPat1 t).orElse fun _ =>
      (pmidFromPat pmidPat2 t).orElse fun _ =>
        (pmidFromPat pmidPat3 t).orElse fun _ => pmidFromPat pmidPat4 t

/-! ## PMC ID extraction (`utils.extract_pmcid`) -/

/-- Capture group `(PMC\d+)` shared by all four patterns (IGNORECASE). -/
def pmcCaptureRE : RE := reSeq [strLitCI "PMC", .many1Cls pyDigit]

/-- Pattern `(?:pmc:?)\s*(PMC\d+)` with IGNORECASE. -/
def pmcPat1 : Pat :=
  ⟨reSeq [strLitCI "pmc", .opt (.lit ':'), .manyCls pySpace], pmcCaptureRE, .eps, false⟩

/-- Pattern `(?:pmcid:?)\s*(PMC\d+)` with IGNORECASE. -/
def pmcPat2 : Pat :=
  ⟨reSeq [strLitCI "pmcid", .opt (.lit ':'), .manyCls pySpace], pmcCaptureRE, .eps, false⟩

/-- Pattern `^(PMC\d+)$`. -/
def pmcPat3 : Pat := ⟨.eps, pmcCaptureRE, .eol, true⟩

/-- Pattern `(PMC\d+)` anywhere. -/
def pmcPat4 : Pat := ⟨.eps, pmcCaptureRE, .eps, false⟩

/-- Validation applied to the uppercased capture:
`pmcid.startswith('PMC') and pmcid[3:].isdigit()`. -/
def pmcidValid (l : List Char) : Bool := l.take 3 = ['P', 'M', 'C'] && pyIsdigit (l.drop 3)

def pmcFromPat (p : Pat) (t : List Char) : Option String :=
  match reSearch p t with
  | some cap =>
    let up := cap.map Char.toUpper
    if pmcidValid up then some (String.mk up) else none
  | none => none

/-- Embedding of `utils.extract_pmcid`. -/
def extract_pmcid (text : String) : Option String :=
  if text = "" then none
  else
    let t := stripL text.data
    (pmcFromPat pmcPat1 t).orElse fun _ =>
      (pmcFromPat pmcPat2 t).orElse fun _ =>
        (pmcFromPat pmcPat3 t).orElse fun _ => pmcFromPat pmcPat4 t

/-! ## arXiv ID extraction (`utils.extract_arxiv_id`) -/

/-- Capture group `([\d.]+v?\d*)` (IGNORECASE, so the `v` matches both cases). -/
def arxLooseRE : RE := reSeq [.many1Cls digitDot, .opt (.litCI 'v'), .manyCls pyDigit]

/-- Pattern `(?:arxiv:)\s*([\d.]+v?\d*)` with IGNORECASE. -/
def arxPat1 : Pat :=
  ⟨reSeq [strLitCI "arxiv:", .manyCls pySpace], arxLooseRE, .eps, false⟩

/-- Pattern `(?:arXiv:)\s*([\d.]+v?\d*)` with IGNORECASE (identical to the
previous one once compiled; kept as a second cascade entry as in the source). -/
def arxPat2 : Pat :=
  ⟨reSeq [strLitCI "arXiv:", .manyCls pySpace], arxLooseRE, .eps, false⟩

/-- Pattern `(?:https?://arxiv\.org/abs/)([\d.]+v?\d*)` with IGNORECASE. -/
def arxPat3 : Pat :=
  ⟨reSeq [strLitCI "http", .opt (.litCI 's'), strLit "://", strLitCI "arxiv.org/abs/"],
    arxLooseRE, .eps, false⟩

/-- Pattern `^([\d.]+v?\d*)$`. -/
def arxPat4 : Pat := ⟨.eps, arxLooseRE, .eol, true⟩

/-- New-format capture `(\d{4}\.\d{4,5}(?:v\d+)?)` with IGNORECASE. -/
def arxNewCI : RE :=
  reSeq [.repCls pyDigit 4 4, .lit '.', .repCls pyDigit 4 5,
    .opt (reSeq [.litCI 'v', .many1Cls pyDigit])]

def arxPat5 : Pat := ⟨.eps, arxNewCI, .eps, false⟩

/-- Old-format capture `([a-z-]+(?:\.[A-Z]{2})?/\d{7})` with IGNORECASE. -/
def arxOldCI : RE :=
  reSeq [.many1Cls lowerDashCI, .opt (reSeq [.lit '.', .repCls upperAlphaCI 2 2]),
    .lit '/', .repCls pyDigit 7 7]

def arxPat6 : Pat := ⟨.eps, arxOldCI, .eps, false⟩

/-- Validator regex `^\d{4}\.\d{4,5}(?:v\d+)?$` (no flags, so the `v` is
lower-case only). -/
def arxNewValidPat : Pat :=
  ⟨.eps, reSeq [.repCls pyDigit 4 4, .lit '.', .repCls pyDigit 4 5,
    .opt (reSeq [.lit 'v', .many1Cls pyDigit])], .eol, true⟩

/-- Validator regex `^[a-z-]+(?:\.[A-Z]{2})?/\d{7}$` (no flags). -/
def arxOldValidPat : Pat :=
  ⟨.eps, reSeq [.many1Cls lowerDash, .opt (reSeq [.lit '.', .repCls upperAlpha 2 2]),
    .lit '/', .repCls pyDigit 7 7], .eol, true⟩

/-- Validation applied inside the loop of `extract_arxiv_id`. -/
def arxivValid (l : List Char) : Bool := reTest arxNewValidPat l || reTest arxOldValidPat l

def arxFromPat (p : Pat) (t : List Char) : Option String :=
  match reSearch p t with
  | some cap => if arxivValid cap then some (String.mk cap) else none
  | none => none

/-- Embedding of `utils.extract_arxiv_id`. -/
def extract_arxiv_id (text : String) : Option String :=
  if text = "" then none
  else
    let t := stripL text.data
    (arxFromPat arxPat1 t).orElse fun _ =>
      (arxFromPat arxPat2 t).orElse fun _ =>
        (arxFromPat arxPat3 t).orElse fun _ =>
          (arxFromPat arxPat4 t).orElse fun _ =>
            (arxFromPat arxPat5 t).orElse fun _ => arxFromPat arxPat6 t

/-! ## ISBN extraction (`utils.extract_isbn`) -/

/-- Cleanup `re.sub(r'[^\dX]', '', text.upper())`. -/
def isbnClean (text : String) : List Char :=
  (text.data.map Char.toUpper).filter (fun c => pyDigit c || c = 'X')

/-- Pattern `(?:isbn:?\s*)(978\d{10})` with IGNORECASE. -/
def isbnPat1 : Pat :=
  ⟨reSeq [strLitCI "isbn", .opt (.lit ':'), .manyCls pySpace],
    reSeq [strLit "978", .repCls pyDigit 10 10], .eps, false⟩

/-- Pattern `(?:isbn:?\s*)(\d{9}[\dX])` with IGNORECASE. -/
def isbnPat2 : Pat :=
  ⟨reSeq [strLitCI "isbn", .opt (.lit ':'), .manyCls pySpace],
    reSeq [.repCls pyDigit 9 9, .cls digitOrXCI], .eps, false⟩

/-- Pattern `(978\d{10})` anywhere, with IGNORECASE. -/
def isbnPat3 : Pat := ⟨.eps, reSeq [strLit "978", .repCls pyDigit 10 10], .eps, false⟩

/-- Pattern `(\d{9}[\dX])` anywhere, with IGNORECASE. -/
def isbnPat4 : Pat := ⟨.eps, reSeq [.repCls pyDigit 9 9, .cls digitOrXCI], .eps, false⟩

/-- Embedding of `utils.extract_isbn`.  Note that the regex fallback runs on
the original text, not the uppercased cleanup, and returns the raw capture
without further validation. -/
def extract_isbn (text : String) : Option String :=
  if text = "" then none
  else
    let clean := isbnClean text
    if clean.length = 13 && pyIsdigit clean then some (String.mk clean)
    else if clean.length = 10 && pyIsdigit (clean.take 9) &&
        (pyDigit (clean.getD 9 ' ') || clean.getD 9 ' ' = 'X') then
      some (String.mk clean)
    else
      ((reSearch isbnPat1 text.data).map String.mk).orElse fun _ =>
        ((reSearch isbnPat2 text.data).map String.mk).orElse fun _ =>
          ((reSearch isbnPat3 text.data).map String.mk).orElse fun _ =>
            (reSearch isbnPat4 text.data).map String.mk

/-! ## URL validation (`utils.validate_url`) -/

/-- Characters allowed in a URL scheme after the leading letter
(`urllib.parse` accepts letters, digits, `+`, `-`, `.`). -/
def schemeChar (c : Char) : Bool := c.isAlpha || pyDigit c || c = '+' || c = '-' || c = '.'

/-- Minimal faithful model of `urllib.parse.urlparse` scheme/netloc splitting
as used by `validate_url`: a scheme is a leading letter followed by scheme
characters up to a colon; the netloc is present only when the remainder
starts with `//`, and extends to the next `/`, `?` or `#`. -/
def urlSchemeNetloc (s : List Char) : String × String :=
  let candidate := s.takeWhile (fun c => c ≠ ':')
  let hasScheme :=
    candidate.length < s.length && !candidate.isEmpty &&
      (candidate.headD ' ').isAlpha && candidate.all schemeChar
  let scheme := if hasScheme then String.mk (candidate.map Char.toLower) else ""
  let rest := if hasScheme then s.drop (candidate.length + 1) else s
  let netloc :=
    if rest.take 2 = ['/', '/'] then
      String.mk ((rest.drop 2).takeWhile (fun c => c ≠ '/' && c ≠ '?' && c ≠ '#'))
    else ""
  (scheme, netloc)

/-- Embedding of `utils.validate_url`. -/
def validate_url (url : String) : Bool :=
  if url = "" then false
  else
    let p := urlSchemeNetloc (stripL url.data)
    (p.1 = "http" || p.1 = "https") && p.2 ≠ ""

/-! ## Data model (`models.py`) -/

/-- Citation families supported by Manubot (`models.CitationType`). -/
inductive CitationType where
  | doi | pmid | pmcid | arxiv | isbn | url | wikidata | raw
deriving DecidableEq, Repr

/-- String value of a citation family (the enum's string payload). -/
def CitationType.val : CitationType → String
  | .doi => "doi"
  | .pmid => "pmid"
  | .pmcid => "pmcid"
  | .arxiv => "arxiv"
  | .isbn => "isbn"
  | .url => "url"
  | .wikidata => "wikidata"
  | .raw => "raw"

/-- Normalized BibTeX record (`models.BibTeXEntry` after
`_extract_common_fields`).  Display-only fields that no claim depends on
(journal/booktitle/volume/number/pages/publisher) are not carried. -/
structure BibTeXEntry where
  key : String
  title : Option String := none
  authors : Option (List String) := none
  year : Option Int := none
  doi : Option String := none
  pmid : Option String := none
  pmcid : Option String := none
  arxiv : Option String := none
  isbn : Option String := none
  url : Option String := none
  month : Option String := none
  day : Option String := none
deriving DecidableEq, Repr

/-- Python truthiness of an optional string (`None` and `""` are falsy). -/
def pyTruthy : Option String → Bool
  | none => false
  | some s => s ≠ ""

/-- Unwraps an optional string known to be truthy. -/
def strD (o : Option String) : String := o.getD ""

/-! ### Author parsing (`models.BibTeXEntry._parse_authors`) -/

/-- Length of a `\s+and\s+` match starting exactly at the head of `s`
(the pattern is compiled without flags, hence case-sensitive, and each `\s+`
is greedy with no profitable backtracking because `a` is not whitespace). -/
def andMatchLen (s : List Char) : Option Nat :=
  let w1 := clsRun pySpace s
  if w1 = 0 then none
  else
    let rest := s.drop w1
    if rest.take 3 = ['a', 'n', 'd'] then
      let w2 := clsRun pySpace (rest.drop 3)
      if w2 = 0 then none else some (w1 + 3 + w2)
    else none

/-- Splitting on `re.split(r'\s+and\s+', s)`: leftmost matches, scanned left
to right.  The fuel argument (initialised to the input length, which bounds
the number of scan steps) keeps the recursion structural; the fuel-exhausted
branch is unreachable. -/
def splitAndAux (acc : List Char) : Nat → List Char → List (List Char)
  | _, [] => [acc.reverse]
  | 0, s => [acc.reverse ++ s]
  | fuel + 1, c :: rest =>
    match andMatchLen (c :: rest) with
    | some n => acc.reverse :: splitAndAux [] fuel (rest.drop (n - 1))
    | none => splitAndAux (c :: acc) fuel rest

/-- Embedding of `re.split(r'\s+and\s+', author_string)`. -/
def splitAndSep (s : List Char) : List (List Char) := splitAndAux [] s.length s

/-- Per-segment cleanup of `_parse_authors`: trim, drop empties, flip a
single `"Last, First"` segment (its parts are the text before the first
comma and the text after it) into `"First Last"`. -/
def cleanAuthor (seg : List Char) : Option String :=
  if stripL seg = [] then none
  else if ',' ∈ stripL seg then
    some (String.mk (stripL (((stripL seg).dropWhile (fun c => c ≠ ',')).drop 1) ++
      ' ' :: stripL ((stripL seg).takeWhile (fun c => c ≠ ','))))
  else some (String.mk (stripL seg))

/-- Embedding of `models.BibTeXEntry._parse_authors`. -/
def parse_authors (author_string : String) : List String :=
  (splitAndSep author_string.data).filterMap cleanAuthor

/-! ### Year parsing (`models.BibTeXEntry._extract_common_fields`) -/

/-- Digit run with single underscore separators, as accepted by Python
`int()` after sign and whitespace handling. -/
def duAux (acc : Nat) : List Char → Option Nat
  | [] => some acc
  | c :: rest =>
    if pyDigit c then duAux (10 * acc + (c.toNat - 48)) rest
    else if c = '_' then
      match rest with
      | d :: rest2 =>
        if pyDigit d then duAux (10 * acc + (d.toNat - 48)) rest2 else none
      | [] => none
    else none

/-- Parses `\d(_?\d)*` completely, returning the value. -/
def digitsUnders : List Char → Option Nat
  | [] => none
  | c :: rest => if pyDigit c then duAux (c.toNat - 48) rest else none

/-- Embedding of Python `int(s)` on strings: optional surrounding whitespace,
optional sign, digits with single underscore separators (ASCII digits). -/
def pyIntParse (s : String) : Option Int :=
  if (stripL s.data).take 1 = ['+'] then
    (digitsUnders ((stripL s.data).drop 1)).map Int.ofNat
  else if (stripL s.data).take 1 = ['-'] then
    (digitsUnders ((stripL s.data).drop 1)).map (fun n => -(Int.ofNat n))
  else (digitsUnders (stripL s.data)).map Int.ofNat

/-- Year normalization: `try: self.year = int(fields['year']) except: pass`.
An absent field, or a string `int()` rejects, leaves the year absent. -/
def parseYearField (raw : Option String) : Option Int := raw.bind pyIntParse

/-! ### Manubot citation (`models.ManubotCitation`) -/

/-- Normalized citation record.  Carries the fields the claims are about;
display-field cleaning (`clean_bibtex_field`) and the remaining metadata
columns are outside the scope of the embedded pipeline. -/
structure ManubotCitation where
  id : String
  citation_type : CitationType
  identifier : String
  title : Option String := none
  year : Option Int := none
  date : Option String := none
  original_key : String := ""
deriving DecidableEq, Repr

/-- Pydantic validator `ManubotCitation.validate_manubot_id`: construction
fails unless the id contains a colon separator. -/
def mkManubotCitation (id : String) (t : CitationType) (identifier : String)
    (title : Option String) (year : Option Int) (date : Option String)
    (original_key : String) : Except String ManubotCitation :=
  if ':' ∈ id.data then
    .ok ⟨id, t, identifier, title, year, date, original_key⟩
  else .error "Manubot ID must contain a colon separator"

/-- Per-record conversion outcome (`models.ConversionResult`). -/
structure ConversionResult where
  original_key : String
  success : Bool := false
  manubot_citation : Option ManubotCitation := none
  errors : List String := []
  warnings : List String := []
deriving DecidableEq, Repr

/-! ## Publication date (`utils.generate_publication_date`) -/

/-- Month-name table of `generate_publication_date` (note the extra
four-letter form for September). -/
def monthMapping : List (String × Nat) :=
  [("january", 1), ("jan", 1), ("february", 2), ("feb", 2), ("march", 3), ("mar", 3),
   ("april", 4), ("apr", 4), ("may", 5), ("june", 6), ("jun", 6), ("july", 7), ("jul", 7),
   ("august", 8), ("aug", 8), ("september", 9), ("sep", 9), ("sept", 9),
   ("october", 10), ("oct", 10), ("november", 11), ("nov", 11), ("december", 12), ("dec", 12)]

/-- Two-digit zero-padded rendering, Python `f"{n:02d}"` for `0 ≤ n ≤ 99`. -/
def two (n : Nat) : String := if n < 10 then "0" ++ toString n else toString n

/-- Lower-cased, stripped month text (`month.strip().lower()`). -/
def monthText (month : Option String) : List Char :=
  (stripL (strD month).data).map Char.toLower

/-- Month number computed by the function body: name lookup on the stripped,
lower-cased string, else a 1–12 digit string, else the default 6. -/
def parseMonthNum (month : Option String) : Nat :=
  if pyTruthy month then
    match monthMapping.lookup (String.mk (monthText month)) with
    | some n => n
    | none =>
      if pyIsdigit (monthText month) && 1 ≤ digitsVal (monthText month) &&
          digitsVal (monthText month) ≤ 12 then
        digitsVal (monthText month)
      else 6
  else 6

/-- Day number: a 1–31 digit string on the stripped day text, else the
default 15. -/
def parseDayNum (day : Option String) : Nat :=
  if pyTruthy day then
    if pyIsdigit (stripL (strD day).data) && 1 ≤ digitsVal (stripL (strD day).data) &&
        digitsVal (stripL (strD day).data) ≤ 31 then
      digitsVal (stripL (strD day).data)
    else 15
  else 15

/-- Gregorian leap-year rule used by `datetime`. -/
def isLeapYear (y : Int) : Bool := y % 4 = 0 && (y % 100 ≠ 0 || y % 400 = 0)

/-- Days in a month as `datetime` counts them. -/
def daysInMonth (y : Int) (m : Nat) : Nat :=
  if m = 2 then (if isLeapYear y then 29 else 28)
  else if m = 4 || m = 6 || m = 9 || m = 11 then 30
  else 31

/-- Constructibility of `datetime(y, m, d)`: `datetime` accepts years 1–9999
and raises `ValueError` otherwise. -/
def dateValid (y : Int) (m d : Nat) : Bool :=
  1 ≤ y && y ≤ 9999 && 1 ≤ m && m ≤ 12 && 1 ≤ d && d ≤ daysInMonth y m

/-- Fallback day table of the `except ValueError` branch: February maps to
28, the 30-day months to 30, everything else to 31. -/
def lastDayTable (m : Nat) : Nat :=
  if m = 2 then 28 else if m = 4 || m = 6 || m = 9 || m = 11 then 30 else 31

/-- Embedding of `utils.generate_publication_date`.  Note `if not year`
covers both an absent year and year 0. -/
def generate_publication_date (year : Option Int) (month day : Option String) :
    Option String :=
  match year with
  | none => none
  | some y =>
    if y = 0 then none
    else
      let mn := parseMonthNum month
      let dn := parseDayNum day
      if dateValid y mn dn then some (toString y ++ "-" ++ two mn ++ "-" ++ two dn)
      else some (toString y ++ "-" ++ two mn ++ "-" ++ two (lastDayTable mn))

/-! ## Identifier resolution (`converter.BibTeXConverter._extract_best_identifier`) -/

/-- Family names the resolver's dispatch chain recognises. -/
def knownFamilies : List String := ["doi", "pmid", "pmcid", "arxiv", "isbn", "url"]

/-- One iteration of the priority loop: the `elif` dispatch on the family
name, guarded by truthiness of the record's raw candidate.  An unknown name
falls through every branch. -/
def identifierStep (e : BibTeXEntry) (t : String) : Option (CitationType × String) :=
  if t = "doi" && pyTruthy e.doi then
    (extract_doi (strD e.doi)).map (fun v => (CitationType.doi, v))
  else if t = "pmid" && pyTruthy e.pmid then
    (extract_pmid (strD e.pmid)).map (fun v => (CitationType.pmid, v))
  else if t = "pmcid" && pyTruthy e.pmcid then
    (extract_pmcid (strD e.pmcid)).map (fun v => (CitationType.pmcid, v))
  else if t = "arxiv" && pyTruthy e.arxiv then
    (extract_arxiv_id (strD e.arxiv)).map (fun v => (CitationType.arxiv, v))
  else if t = "isbn" && pyTruthy e.isbn then
    (extract_isbn (strD e.isbn)).map (fun v => (CitationType.isbn, v))
  else if t = "url" && pyTruthy e.url then
    (if validate_url (strD e.url) then some (CitationType.url, strD e.url) else none)
  else none

/-- Loop over the caller-supplied priority list: the first family whose
extractor yields a valid identifier wins. -/
def identifierLoop (e : BibTeXEntry) : List String → Option (CitationType × String)
  | [] => none
  | t :: rest =>
    match identifierStep e t with
    | some r => some r
    | none => identifierLoop e rest

/-- Embedding of `_extract_best_identifier`, including the raw-key fallback
(`if entry.key: return CitationType.RAW, entry.key`). -/
def extract_best_identifier (priority : List String) (e : BibTeXEntry) :
    Option (CitationType × String) :=
  match identifierLoop e priority with
  | some r => some r
  | none => if e.key ≠ "" then some (CitationType.raw, e.key) else none

/-! ## Entry conversion (`converter.BibTeXConverter.convert_entry`) -/

/-- Python truthiness of the optional author list. -/
def authorsTruthy : Option (List String) → Bool
  | none => false
  | some l => l ≠ []

/-- Python truthiness of the optional year (`0` is falsy). -/
def yearTruthy : Option Int → Bool
  | none => false
  | some y => y ≠ 0

/-- Embedding of `convert_entry` restricted to the identifier-relevant
fields; warnings are accumulated in source order (title, authors, year), and
a pydantic validation error surfaces as a `Conversion error:` message. -/
def convert_entry (priority : List String) (e : BibTeXEntry) : ConversionResult :=
  match extract_best_identifier priority e with
  | none => { original_key := e.key, errors := ["No valid identifier found"] }
  | some (t, identifier) =>
    if identifier = "" then { original_key := e.key, errors := ["No valid identifier found"] }
    else
      let manubot_id := t.val ++ ":" ++ identifier
      let pubdate := generate_publication_date e.year e.month e.day
      match mkManubotCitation manubot_id t identifier e.title e.year pubdate e.key with
      | .error msg => { original_key := e.key, errors := ["Conversion error: " ++ msg] }
      | .ok cit =>
        { original_key := e.key
          success := true
          manubot_citation := some cit
          warnings :=
            (if !pyTruthy e.title then ["No title found"] else []) ++
              (if !authorsTruthy e.authors then ["No authors found"] else []) ++
                (if !yearTruthy e.year then ["No publication year found"] else []) }

/-- Per-entry conversion step of `batch_convert`: each parsed entry is
converted independently of its siblings. -/
def convertAll (priority : List String) (entries : List BibTeXEntry) :
    List ConversionResult :=
  entries.map (convert_entry priority)

/-! ## Serialized citation dictionaries -/

/-- Citation dictionary as consumed by `_remove_arxiv_duplicates` and the
sort in `save_yaml` (`dict.get` semantics kept via `Option` fields).  The
keys not probed by that code are not carried. -/
structure CitDict where
  id : Option String := none
  type : Option String := none
  title : Option String := none
  publisher : Option String := none
  year : Option Int := none
deriving DecidableEq, Repr

/-- Projection of `ManubotCitation.to_dict` onto the carried keys: `id` and
`type` are always emitted; metadata keys only when truthy and metadata
inclusion is on (the journal field is renamed to `publisher` there). -/
def toDict (c : ManubotCitation) (journal : Option String) (includeMetadata : Bool) :
    CitDict :=
  { id := some c.id
    type := some c.citation_type.val
    title := if includeMetadata && pyTruthy c.title then c.title else none
    publisher := if includeMetadata && pyTruthy journal then journal else none
    year := if includeMetadata && yearTruthy c.year then c.year else none }

/-! ## Duplicate detection (`_find_title_overlap`, `_remove_arxiv_duplicates`) -/

/-- Tokenization scan: accumulates the current word run (reversed) and
emits it when a non-word character or the end of the text is reached. -/
def wordTokensAux (cur : List Char) : List Char → List (List Char)
  | [] => if cur = [] then [] else [cur.reverse]
  | c :: rest =>
    if pyWord c then wordTokensAux (c :: cur) rest
    else if cur = [] then wordTokensAux [] rest
    else cur.reverse :: wordTokensAux [] rest

/-- Tokenization `re.findall(r'\b\w+\b', title.lower())`: the maximal runs of
word characters of the lower-cased title. -/
def wordTokens (l : List Char) : List (List Char) := wordTokensAux [] l

/-- Tokens of a title: lower-case first, then split into word runs. -/
def titleTokens (s : String) : List (List Char) := wordTokens (s.data.map Char.toLower)

/-- Length of the common prefix of two token lists (the run extension loop). -/
def runLen : List (List Char) → List (List Char) → Nat
  | a :: as, b :: bs => if a = b then runLen as bs + 1 else 0
  | _, _ => 0

/-- Maximum over all suffix pairs, mirroring the double loop over starting
positions `(i, j)`. -/
def maxRunOver (w1 w2 : List (List Char)) : Nat :=
  ((w1.tails.filter (fun t => !t.isEmpty)).map (fun t1 =>
    ((w2.tails.filter (fun t => !t.isEmpty)).map (fun t2 => runLen t1 t2)).foldr max 0)).foldr
    max 0

/-- Embedding of `_find_title_overlap` (its `min_words` parameter is unused
by the body). -/
def find_title_overlap (title1 title2 : String) : Nat :=
  if title1 = "" || title2 = "" then 0
  else maxRunOver (titleTokens title1) (titleTokens title2)

/-- Dictionary-get with default: `c.get('title', '')`. -/
def getTitle (c : CitDict) : String := c.title.getD ""

/-- ArXiv-partition test: `c.get('publisher') == 'CoRR'`. -/
def isCoRR (c : CitDict) : Bool := c.publisher = some "CoRR"

/-- Inner scan of the marking loop: the `break` on the first qualifying
non-arXiv entry makes the loop an existence test over the non-arXiv
partition (blank-title partners are skipped by the `continue`). -/
def hasPublishedMatch (citations : List CitDict) (minOverlap : Nat) (a : CitDict) : Bool :=
  (citations.filter (fun c => !isCoRR c)).any
    (fun b => getTitle b ≠ "" && minOverlap ≤ find_title_overlap (getTitle a) (getTitle b))

/-- Ids collected by the marking loop of `_remove_arxiv_duplicates`: an arXiv
entry with a non-blank title is marked as soon as some non-arXiv entry with a
non-blank title reaches the overlap threshold. -/
def arxivRemoveIds (citations : List CitDict) (minOverlap : Nat) : List (Option String) :=
  (citations.filter isCoRR).foldl
    (fun acc a =>
      if getTitle a = "" then acc
      else if hasPublishedMatch citations minOverlap a then acc ++ [a.id]
      else acc)
    []

/-- Embedding of `_remove_arxiv_duplicates`: the returned list keeps exactly
the citations whose id is not in the marked set. -/
def remove_arxiv_duplicates (citations : List CitDict) (minOverlap : Nat) : List CitDict :=
  citations.filter (fun c => !(arxivRemoveIds citations minOverlap).contains c.id)

/-! ## Sorting (`save_yaml`) -/

/-- Year with the `x.get('year', 0) or 0` fallback. -/
def yearOr0 (c : CitDict) : Int :=
  match c.year with
  | none => 0
  | some y => y

/-- Primary sort component `-(x.get('year', 0) or 0)`. -/
def yearKey (c : CitDict) : Int := -(yearOr0 c)

/-- Secondary sort component `x.get('title', '').lower()` (as a character
list; Python compares strings by code points). -/
def titleKey (c : CitDict) : List Char := (getTitle c).data.map Char.toLower

/-- Lexicographic comparison of character lists by code point, Python's
string order. -/
def lexLE : List Char → List Char → Bool
  | [], _ => true
  | _ :: _, [] => false
  | a :: as, b :: bs => if a < b then true else if b < a then false else lexLE as bs

/-- Comparison realising Python's ascending order on the key tuple
`(-(year or 0), title.lower())`. -/
def sortLE (a b : CitDict) : Bool :=
  yearKey a < yearKey b || (yearKey a = yearKey b && lexLE (titleKey a) (titleKey b))

/-- Stable insertion step: the new element (earlier in the original order
than everything already placed) goes before the first element it compares
less-or-equal to, hence before every element with an equal key. -/
def insertStable (a : CitDict) : List CitDict → List CitDict
  | [] => [a]
  | b :: l => if sortLE a b then a :: b :: l else b :: insertStable a l

/-- Stable sort of `save_yaml`.  Python `list.sort` is stable, and a stable
sort by a total preorder is uniquely determined by the input, so this stable
insertion sort computes exactly the list `list.sort` produces. -/
def sortCitations (l : List CitDict) : List CitDict := l.foldr insertStable []

/-- Citation post-processing pipeline of `save_yaml`: duplicate removal with
the default threshold 6, then the year/title sort. -/
def processCitations (l : List CitDict) : List CitDict :=
  sortCitations (remove_arxiv_duplicates l 6)

/-! ## Resolver lemmas -/

theorem identifierLoop_append_none {e : BibTeXEntry} {pre : List String}
    (h : ∀ g ∈ pre, identifierStep e g = none) (l : List String) :
    identifierLoop e (pre ++ l) = identifierLoop e l := by
  induction pre with
  | nil => simp
  | cons g gs ih =>
    have hg : identifierStep e g = none := h g (List.mem_cons_self g gs)
    simp only [List.cons_append, identifierLoop, hg]
    exact ih (fun x hx => h x (List.mem_cons_of_mem g hx))

theorem identifierLoop_none {e : BibTeXEntry} {prio : List String}
    (h : ∀ g ∈ prio, identifierStep e g = none) : identifierLoop e prio = none := by
  have := identifierLoop_append_none h []
  simpa using this

/-- C2 (part): an unknown family name falls through the dispatch chain. -/
theorem identifierStep_unknown {e : BibTeXEntry} {t : String}
    (h : t ∉ knownFamilies) : identifierStep e t = none := by
  simp only [knownFamilies, List.mem_cons, List.not_mem_nil, or_false, not_or] at h
  obtain ⟨h1, h2, h3, h4, h5, h6⟩ := h
  simp [identifierStep, h1, h2, h3, h4, h5, h6]

/-! ## Claim C2 -/

/-- C2: identifier resolution walks the caller-supplied priority list in
order; the first family whose raw candidate is non-empty and whose extractor
yields a valid identifier wins, and resolution stops there.  With priority
`[pmid, doi]` a record holding both valid candidates resolves to the pmid.
Unknown family names in the priority list are ignored. -/
theorem C2_resolver_priority :
    (∀ (e : BibTeXEntry) (pre post : List String) (f : String) (r : CitationType × String),
        (∀ g ∈ pre, identifierStep e g = none) → identifierStep e f = some r →
          extract_best_identifier (pre ++ f :: post) e = some r) ∧
    (∀ (e : BibTeXEntry) (t : String) (rest : List String), t ∉ knownFamilies →
        identifierLoop e (t :: rest) = identifierLoop e rest) ∧
    (∀ (e : BibTeXEntry) (p d : String),
        pyTruthy e.pmid = true → extract_pmid (strD e.pmid) = some p →
        pyTruthy e.doi = true → extract_doi (strD e.doi) = some d →
          extract_best_identifier ["pmid", "doi"] e = some (CitationType.pmid, p)) := by
  refine ⟨?_, ?_, ?_⟩
  · intro e pre post f r hpre hf
    unfold extract_best_identifier
    rw [identifierLoop_append_none hpre]
    simp [identifierLoop, hf]
  · intro e t rest ht
    simp [identifierLoop, identifierStep_unknown ht]
  · intro e p d hpt hp _ _
    unfold extract_best_identifier
    have hstep : identifierStep e "pmid" = some (CitationType.pmid, p) := by
      simp [identifierStep, hpt, hp]
    simp [identifierLoop, hstep]

/-- Witness for C2 at a concrete record holding both a valid DOI and a valid
PMID candidate. -/
theorem C2_resolver_priority_witness :
    extract_best_identifier ["pmid", "doi"]
        { key := "k", doi := some "10.1234/abc", pmid := some "1234567" } =
      some (CitationType.pmid, "1234567") :=
  C2_resolver_priority.2.2
    { key := "k", doi := some "10.1234/abc", pmid := some "1234567" }
    "1234567" "10.1234/abc" (by decide) (by decide) (by decide) (by decide)

/-! ## Claim C4 -/

/-- C4: when no family in the priority list yields a match, resolution falls
back to the raw key when the key is non-empty and fails when the key is
empty; a failed resolution is recorded as a local failure on that record
(the error message, success stays false), and each record of a batch is
converted independently of its siblings. -/
theorem C4_raw_fallback :
    (∀ (e : BibTeXEntry) (prio : List String),
        (∀ g ∈ prio, identifierStep e g = none) → e.key ≠ "" →
          extract_best_identifier prio e = some (CitationType.raw, e.key)) ∧
    (∀ (e : BibTeXEntry) (prio : List String),
        (∀ g ∈ prio, identifierStep e g = none) → e.key = "" →
          extract_best_identifier prio e = none) ∧
    (∀ (e : BibTeXEntry) (prio : List String),
        extract_best_identifier prio e = none →
          convert_entry prio e =
            { original_key := e.key, success := false, manubot_citation := none,
              errors := ["No valid identifier found"], warnings := [] }) ∧
    (∀ (prio : List String) (l1 l2 : List BibTeXEntry) (e : BibTeXEntry),
        convertAll prio (l1 ++ e :: l2) =
          convertAll prio l1 ++ convert_entry prio e :: convertAll prio l2) := by
  refine ⟨?_, ?_, ?_, ?_⟩
  · intro e prio h hk
    unfold extract_best_identifier
    rw [identifierLoop_none h]
    simp [hk]
  · intro e prio h hk
    unfold extract_best_identifier
    rw [identifierLoop_none h]
    simp [hk]
  · intro e prio h
    simp [convert_entry, h]
  · intro prio l1 l2 e
    simp [convertAll]

/-- Witness for C4: a record with no identifier candidates and key
`smith2020` resolves to the raw fallback, while the same record with an
empty key fails resolution and yields the local failure outcome. -/
theorem C4_raw_fallback_witness :
    extract_best_identifier ["doi", "pmid", "pmcid", "arxiv", "isbn", "url"]
        { key := "smith2020" } = some (CitationType.raw, "smith2020") ∧
    extract_best_identifier ["doi", "pmid", "pmcid", "arxiv", "isbn", "url"]
        { key := "" } = none ∧
    convert_entry ["doi", "pmid", "pmcid", "arxiv", "isbn", "url"] { key := "" } =
      { original_key := "", success := false, manubot_citation := none,
        errors := ["No valid identifier found"], warnings := [] } := by
  have h1 := C4_raw_fallback.1 { key := "smith2020" }
    ["doi", "pmid", "pmcid", "arxiv", "isbn", "url"] (by decide) (by decide)
  have h2 := C4_raw_fallback.2.1 { key := "" }
    ["doi", "pmid", "pmcid", "arxiv", "isbn", "url"] (by decide) (by decide)
  have h3 := C4_raw_fallback.2.2.1 { key := "" }
    ["doi", "pmid", "pmcid", "arxiv", "isbn", "url"] h2
  exact ⟨h1, h2, h3⟩

/-! ## Stripping lemmas -/

theorem dropWhile_all_not {f : Char → Bool} {l : List Char}
    (h : ∀ c ∈ l, f c = false) : l.dropWhile f = l := by
  cases l with
  | nil => rfl
  | cons c rest => simp [List.dropWhile_cons, h c (List.mem_cons_self c rest)]

theorem stripL_eq_self {l : List Char} (h : ∀ c ∈ l, pySpace c = false) :
    stripL l = l := by
  unfold stripL dropTrailing
  rw [dropWhile_all_not h, dropWhile_all_not (fun c hc => h c (List.mem_reverse.mp hc)),
    List.reverse_reverse]

theorem mem_dropTrailing {f : Char → Bool} {l : List Char} {c : Char}
    (h : c ∈ dropTrailing f l) : c ∈ l := by
  unfold dropTrailing at h
  have : c ∈ l.reverse.dropWhile f := List.mem_reverse.mp h
  exact List.mem_reverse.mp ((List.dropWhile_sublist f).mem this)

theorem mem_stripL {l : List Char} {c : Char} (h : c ∈ stripL l) : c ∈ l :=
  (List.dropWhile_sublist pySpace).mem (mem_dropTrailing h)

theorem mem_strip_or_space {l : List Char} {c : Char} (hc : c ∈ l) :
    c ∈ stripL l ∨ pySpace c = true := by
  unfold stripL dropTrailing
  by_cases h1 : c ∈ l.dropWhile pySpace
  · by_cases h2 : c ∈ ((l.dropWhile pySpace).reverse.dropWhile pySpace).reverse
    · exact Or.inl h2
    · right
      have hyr : c ∈ (l.dropWhile pySpace).reverse := List.mem_reverse.mpr h1
      rw [← List.takeWhile_append_dropWhile (p := pySpace)
        (l := (l.dropWhile pySpace).reverse)] at hyr
      rcases List.mem_append.mp hyr with h3 | h3
      · exact List.mem_takeWhile_imp h3
      · exact absurd (List.mem_reverse.mpr h3) h2
  · right
    rw [← List.takeWhile_append_dropWhile (p := pySpace) (l := l)] at hc
    rcases List.mem_append.mp hc with h3 | h3
    · exact List.mem_takeWhile_imp h3
    · exact absurd h3 h1

theorem pyDigit_not_space {c : Char} (h : pyDigit c = true) : pySpace c = false := by
  simp only [pySpace, Bool.or_eq_false_iff, decide_eq_false_iff_not]
  refine ⟨⟨⟨⟨⟨?_, ?_⟩, ?_⟩, ?_⟩, ?_⟩, ?_⟩ <;> rintro rfl <;> exact absurd h (by decide)

/-! ## Integer parsing lemmas -/

theorem duAux_cons_digit {c : Char} {rest : List Char} {acc : Nat}
    (hc : pyDigit c = true) :
    duAux acc (c :: rest) = duAux (10 * acc + (c.toNat - 48)) rest := by
  cases rest with
  | nil => simp [duAux, hc]
  | cons d r2 => rw [duAux.eq_2, if_pos hc]

theorem duAux_digits {l : List Char} (h : ∀ c ∈ l, pyDigit c = true) :
    ∀ acc : Nat, duAux acc l = some (l.foldl (fun a c => 10 * a + (c.toNat - 48)) acc) := by
  induction l with
  | nil => intro acc; rfl
  | cons c rest ih =>
    intro acc
    rw [duAux_cons_digit (h c (List.mem_cons_self c rest)), List.foldl_cons]
    exact ih (fun x hx => h x (List.mem_cons_of_mem c hx)) _

theorem digitsUnders_digits {l : List Char} (hne : l ≠ [])
    (h : ∀ c ∈ l, pyDigit c = true) : digitsUnders l = some (digitsVal l) := by
  match l, hne with
  | c :: rest, _ =>
    have hc : pyDigit c = true := h c (List.mem_cons_self c rest)
    have h1 : digitsUnders (c :: rest) = duAux (c.toNat - 48) rest := by
      simp [digitsUnders, hc]
    rw [h1, duAux_digits (fun x hx => h x (List.mem_cons_of_mem c hx))]
    simp [digitsVal, List.foldl_cons]

theorem duAux_chars : ∀ (l : List Char) (acc n : Nat), duAux acc l = some n →
    ∀ c ∈ l, pyDigit c = true ∨ c = '_'
  | [] => by intro acc n h x hx; simp at hx
  | [c] => by
    intro acc n h x hx
    rw [duAux.eq_3] at h
    by_cases hc : pyDigit c = true
    · simp only [List.mem_singleton] at hx; subst hx; exact Or.inl hc
    · rw [if_neg hc] at h
      by_cases hu : c = '_'
      · rw [if_pos hu] at h; exact absurd h (by simp)
      · rw [if_neg hu] at h; exact absurd h (by simp)
  | c :: d :: rest2 => by
    intro acc n h x hx
    rw [duAux.eq_2] at h
    by_cases hc : pyDigit c = true
    · rw [if_pos hc] at h
      rcases List.mem_cons.mp hx with rfl | hx2
      · exact Or.inl hc
      · exact duAux_chars (d :: rest2) _ _ h x hx2
    · rw [if_neg hc] at h
      by_cases hu : c = '_'
      · rw [if_pos hu] at h
        by_cases hd : pyDigit d = true
        · rw [if_pos hd] at h
          rcases List.mem_cons.mp hx with rfl | hx2
          · exact Or.inr hu
          · rcases List.mem_cons.mp hx2 with rfl | hx3
            · exact Or.inl hd
            · exact duAux_chars rest2 _ _ h x hx3
        · rw [if_neg hd] at h; exact absurd h (by simp)
      · rw [if_neg hu] at h; exact absurd h (by simp)
termination_by l => l.length
decreasing_by
  all_goals simp only [List.length_cons]
  · omega
  · omega

theorem digitsUnders_chars {l : List Char} {n : Nat} (h : digitsUnders l = some n) :
    ∀ c ∈ l, pyDigit c = true ∨ c = '_' := by
  match l with
  | [] => simp
  | c :: rest =>
    have heq : digitsUnders (c :: rest) =
        if pyDigit c then duAux (c.toNat - 48) rest else none := rfl
    rw [heq] at h
    by_cases hc : pyDigit c = true
    · rw [if_pos hc] at h
      intro x hx
      rcases List.mem_cons.mp hx with rfl | hx2
      · exact Or.inl hc
      · exact duAux_chars rest _ _ h x hx2
    · rw [if_neg hc] at h; exact absurd h (by simp)

/-! ## Claim C9 -/

/-- C9 counterexample: the normalization uses Python `int()`, which accepts
a leading sign (and surrounding whitespace), so `"+2021"` — not fully
composed of digits — still yields year 2021 instead of leaving it absent. -/
theorem C9_counterexample :
    parseYearField (some "+2021") = some 2021 ∧
      "+2021".data.all pyDigit = false ∧
      parseYearField (some " 2021 ") = some 2021 := by
  refine ⟨by decide, by decide, by decide⟩

/-- C9 amended: year normalization accepts exactly what Python `int()`
accepts — optional surrounding whitespace, an optional sign, and ASCII
digits possibly separated by single underscores.  Digit-only strings are
accepted with their decimal value; any string containing a character outside
that shape (words, mixed text) leaves the year absent; an absent or falsy
year is reported as a warning, never as an error. -/
theorem C9_year_parsing_amended :
    (∀ s : String, s.data ≠ [] → (∀ c ∈ s.data, pyDigit c = true) →
        parseYearField (some s) = some (Int.ofNat (digitsVal s.data))) ∧
    (∀ (s : String) (n : Int), pyIntParse s = some n →
        ∀ c ∈ s.data, pySpace c = true ∨ c = '+' ∨ c = '-' ∨ pyDigit c = true ∨ c = '_') ∧
    parseYearField none = none ∧
    parseYearField (some "twenty") = none ∧
    (∀ (prio : List String) (e : BibTeXEntry) (t : CitationType) (v : String),
        e.year = none → extract_best_identifier prio e = some (t, v) → v ≠ "" →
          (convert_entry prio e).success = true ∧
            "No publication year found" ∈ (convert_entry prio e).warnings) := by
  refine ⟨?_, ?_, rfl, by decide, ?_⟩
  · intro s hne h
    have hnospace : ∀ c ∈ s.data, pySpace c = false :=
      fun c hc => pyDigit_not_space (h c hc)
    have hstrip : stripL s.data = s.data := stripL_eq_self hnospace
    have hplus : ¬ (s.data.take 1 = ['+']) := by
      intro hcontr
      have hm : '+' ∈ s.data := by
        refine (List.take_sublist 1 s.data).mem ?_
        rw [hcontr]; exact List.mem_singleton.mpr rfl
      exact absurd (h '+' hm) (by decide)
    have hminus : ¬ (s.data.take 1 = ['-']) := by
      intro hcontr
      have hm : '-' ∈ s.data := by
        refine (List.take_sublist 1 s.data).mem ?_
        rw [hcontr]; exact List.mem_singleton.mpr rfl
      exact absurd (h '-' hm) (by decide)
    show pyIntParse s = _
    unfold pyIntParse
    rw [hstrip, if_neg hplus, if_neg hminus, digitsUnders_digits hne h]
    rfl
  · intro s n hparse c hc
    rcases mem_strip_or_space hc with hin | hsp
    · unfold pyIntParse at hparse
      by_cases hplus : (stripL s.data).take 1 = ['+']
      · rw [if_pos hplus] at hparse
        rcases hdu : digitsUnders ((stripL s.data).drop 1) with _ | m
        · rw [hdu] at hparse; exact absurd hparse (by simp)
        · have hdecomp : stripL s.data = '+' :: (stripL s.data).drop 1 := by
            cases hs2 : stripL s.data with
            | nil => rw [hs2] at hplus; exact absurd hplus (by simp)
            | cons a rest =>
              rw [hs2] at hplus
              simp only [List.take_succ_cons, List.take_zero, List.cons.injEq,
                and_true] at hplus
              simp [hplus]
          rw [hdecomp] at hin
          rcases List.mem_cons.mp hin with rfl | hin2
          · exact Or.inr (Or.inl rfl)
          · rcases digitsUnders_chars hdu c hin2 with hd | hu
            · exact Or.inr (Or.inr (Or.inr (Or.inl hd)))
            · exact Or.inr (Or.inr (Or.inr (Or.inr hu)))
      · rw [if_neg hplus] at hparse
        by_cases hminus : (stripL s.data).take 1 = ['-']
        · rw [if_pos hminus] at hparse
          rcases hdu : digitsUnders ((stripL s.data).drop 1) with _ | m
          · rw [hdu] at hparse; exact absurd hparse (by simp)
          · have hdecomp : stripL s.data = '-' :: (stripL s.data).drop 1 := by
              cases hs2 : stripL s.data with
              | nil => rw [hs2] at hminus; exact absurd hminus (by simp)
              | cons a rest =>
                rw [hs2] at hminus
                simp only [List.take_succ_cons, List.take_zero, List.cons.injEq,
                  and_true] at hminus
                simp [hminus]
            rw [hdecomp] at hin
            rcases List.mem_cons.mp hin with rfl | hin2
            · exact Or.inr (Or.inr (Or.inl rfl))
            · rcases digitsUnders_chars hdu c hin2 with hd | hu
              · exact Or.inr (Or.inr (Or.inr (Or.inl hd)))
              · exact Or.inr (Or.inr (Or.inr (Or.inr hu)))
        · rw [if_neg hminus] at hparse
          rcases hdu : digitsUnders (stripL s.data) with _ | m
          · rw [hdu] at hparse; exact absurd hparse (by simp)
          · rcases digitsUnders_chars hdu c hin with hd | hu
            · exact Or.inr (Or.inr (Or.inr (Or.inl hd)))
            · exact Or.inr (Or.inr (Or.inr (Or.inr hu)))
    · exact Or.inl hsp
  · intro prio e t v hyear hres hv
    simp only [convert_entry, hres, if_neg hv]
    have hok : mkManubotCitation (t.val ++ ":" ++ v) t v e.title e.year
        (generate_publication_date e.year e.month e.day) e.key =
        .ok ⟨t.val ++ ":" ++ v, t, v, e.title, e.year,
          generate_publication_date e.year e.month e.day, e.key⟩ := by
      unfold mkManubotCitation
      rw [if_pos]
      have : (t.val ++ ":" ++ v).data = t.val.data ++ ':' :: v.data := by
        simp [String.data_append]
      rw [this]
      simp
    rw [hok]
    constructor
    · rfl
    · simp [hyear, yearTruthy]

/-- Witness for C9's amended universal parts at concrete inputs. -/
theorem C9_year_parsing_amended_witness :
    parseYearField (some "2023") = some (Int.ofNat (digitsVal "2023".data)) ∧
    (∀ c ∈ "+2_1".data, pySpace c = true ∨ c = '+' ∨ c = '-' ∨ pyDigit c = true ∨ c = '_') ∧
    (convert_entry ["doi"] { key := "nokey2023", year := none }).success = true ∧
    "No publication year found" ∈
      (convert_entry ["doi"] { key := "nokey2023", year := none }).warnings := by
  refine ⟨C9_year_parsing_amended.1 "2023" (by decide) (by decide),
    C9_year_parsing_amended.2.1 "+2_1" 21 (by decide), ?_, ?_⟩
  · exact (C9_year_parsing_amended.2.2.2.2 ["doi"]
      { key := "nokey2023", year := none } CitationType.raw "nokey2023" rfl (by decide)
      (by decide)).1
  · exact (C9_year_parsing_amended.2.2.2.2 ["doi"]
      { key := "nokey2023", year := none } CitationType.raw "nokey2023" rfl (by decide)
      (by decide)).2

/-! ## Head of a stripped list -/

theorem dropTrailing_eq_rdropWhile (f : Char → Bool) (l : List Char) :
    dropTrailing f l = l.rdropWhile f := rfl

theorem stripL_head_not_space {y : List Char} {c : Char} {r : List Char}
    (h : stripL y = c :: r) : pySpace c = false := by
  have hpref : stripL y <+: y.dropWhile pySpace := by
    unfold stripL
    rw [dropTrailing_eq_rdropWhile]
    exact List.rdropWhile_prefix _ _
  obtain ⟨t, ht⟩ := hpref
  rw [h] at ht
  have ht' : y.dropWhile pySpace = c :: (r ++ t) := by
    rw [← ht]; simp
  have h0 := List.head?_dropWhile_not pySpace y
  rw [ht'] at h0
  simpa using h0

theorem stripL_all_space {y : List Char}
    (h : ∀ c ∈ stripL y, pySpace c = true) : stripL y = [] := by
  cases hs : stripL y with
  | nil => rfl
  | cons c r =>
    have h1 := stripL_head_not_space hs
    have h2 := h c (by rw [hs]; exact List.mem_cons_self c r)
    rw [h1] at h2
    exact absurd h2 (by simp)

/-! ## Claim C8 -/

/-- C8 counterexample: the author split uses `re.split(r'\s+and\s+', ...)`
with no IGNORECASE flag, so an upper-case `AND` does not split; and a
segment consisting of a bare comma survives as the single-space name, so the
output can contain a blank name. -/
theorem C8_counterexample :
    parse_authors "Smith, John AND Doe, Jane" = ["John AND Doe, Jane Smith"] ∧
    parse_authors "," = [" "] := by
  refine ⟨by decide, by decide⟩

/-- C8 amended: author parsing splits on the token `and` surrounded by
whitespace, case-sensitively; every `"Last, First"` segment becomes
`"First Last"`; segments without a comma pass through; segments empty after
trimming are dropped.  Every produced name is non-empty, and the only blank
name possible is the single space arising from a segment whose comma parts
are both blank. -/
theorem C8_author_parsing_amended :
    (∀ (s : String), ∀ a ∈ parse_authors s,
        a ≠ "" ∧ ((∀ c ∈ a.data, pySpace c = true) → a = " ")) ∧
    parse_authors "John Doe and Smith, Jane" = ["John Doe", "Jane Smith"] ∧
    parse_authors "One  and  Two and Three" = ["One", "Two", "Three"] ∧
    parse_authors "A AND B" = ["A AND B"] := by
  refine ⟨?_, by decide, by decide, by decide⟩
  intro s a ha
  obtain ⟨seg, _, hseg⟩ := List.mem_filterMap.mp ha
  unfold cleanAuthor at hseg
  by_cases hempty : stripL seg = []
  · rw [if_pos hempty] at hseg
    exact absurd hseg (by simp)
  · rw [if_neg hempty] at hseg
    by_cases hcomma : ',' ∈ stripL seg
    · rw [if_pos hcomma] at hseg
      have ha2 : a = String.mk
          (stripL (((stripL seg).dropWhile (fun c => c ≠ ',')).drop 1) ++
            ' ' :: stripL ((stripL seg).takeWhile (fun c => c ≠ ','))) :=
        (Option.some.inj hseg).symm
      constructor
      · rw [ha2]
        intro hcontr
        rw [String.ext_iff] at hcontr
        simp at hcontr
      · intro hblank
        rw [ha2] at hblank ⊢
        have hblank2 : ∀ c ∈ (stripL (((stripL seg).dropWhile (fun c => c ≠ ',')).drop 1) ++
            ' ' :: stripL ((stripL seg).takeWhile (fun c => c ≠ ','))), pySpace c = true :=
          fun c hc => hblank c hc
        have hfirst : stripL (((stripL seg).dropWhile (fun c => c ≠ ',')).drop 1) = [] :=
          stripL_all_space (fun c hc => hblank2 c (List.mem_append.mpr (Or.inl hc)))
        have hlast : stripL ((stripL seg).takeWhile (fun c => c ≠ ',')) = [] :=
          stripL_all_space (fun c hc =>
            hblank2 c (List.mem_append.mpr (Or.inr (List.mem_cons_of_mem ' ' hc))))
        rw [String.ext_iff]
        show (stripL (((stripL seg).dropWhile (fun c => c ≠ ',')).drop 1) ++
            ' ' :: stripL ((stripL seg).takeWhile (fun c => c ≠ ','))) = " ".data
        rw [hfirst, hlast]
        rfl
    · rw [if_neg hcomma] at hseg
      have ha2 : a = String.mk (stripL seg) := (Option.some.inj hseg).symm
      constructor
      · rw [ha2]
        intro hcontr
        rw [String.ext_iff] at hcontr
        exact hempty (by simpa using hcontr)
      · intro hblank
        rw [ha2] at hblank
        exact absurd (stripL_all_space (fun c hc => hblank c hc)) hempty

/-- Witness for C8's amended universal part at a concrete author string. -/
theorem C8_author_parsing_amended_witness :
    ("Jane Doe" ≠ "" ∧ ((∀ c ∈ "Jane Doe".data, pySpace c = true) → "Jane Doe" = " ")) := by
  exact C8_author_parsing_amended.1 "Doe, Jane" "Jane Doe" (by decide)

/-! ## Month and day parsing bounds -/

theorem monthMapping_bounds {m : String} {n : Nat}
    (h : monthMapping.lookup m = some n) : 1 ≤ n ∧ n ≤ 12 := by
  obtain ⟨l1, l2, heq, _⟩ := List.lookup_eq_some_iff.mp h
  have hmem : (m, n) ∈ monthMapping := by
    rw [heq]; exact List.mem_append.mpr (Or.inr (List.mem_cons_self _ _))
  have hall : ∀ p ∈ monthMapping, 1 ≤ p.2 ∧ p.2 ≤ 12 := by decide
  exact hall (m, n) hmem

theorem parseMonthNum_bounds (m : Option String) :
    1 ≤ parseMonthNum m ∧ parseMonthNum m ≤ 12 := by
  unfold parseMonthNum
  by_cases ht : pyTruthy m = true
  · rw [if_pos ht]
    cases hl : monthMapping.lookup (String.mk (monthText m)) with
    | some n => exact monthMapping_bounds hl
    | none =>
      by_cases hcond : (pyIsdigit (monthText m) && 1 ≤ digitsVal (monthText m) &&
          digitsVal (monthText m) ≤ 12) = true
      · rw [if_pos hcond]
        simp only [Bool.and_eq_true, decide_eq_true_eq] at hcond
        exact ⟨hcond.1.2, hcond.2⟩
      · rw [if_neg hcond]; exact ⟨by decide, by decide⟩
  · rw [if_neg ht]; exact ⟨by decide, by decide⟩

theorem parseDayNum_bounds (d : Option String) :
    1 ≤ parseDayNum d ∧ parseDayNum d ≤ 31 := by
  unfold parseDayNum
  by_cases ht : pyTruthy d = true
  · rw [if_pos ht]
    by_cases hcond : (pyIsdigit (stripL (strD d).data) &&
        1 ≤ digitsVal (stripL (strD d).data) &&
        digitsVal (stripL (strD d).data) ≤ 31) = true
    · rw [if_pos hcond]
      simp only [Bool.and_eq_true, decide_eq_true_eq] at hcond
      exact ⟨hcond.1.2, hcond.2⟩
    · rw [if_neg hcond]; exact ⟨by decide, by decide⟩
  · rw [if_neg ht]; exact ⟨by decide, by decide⟩

/-! ## Claim C6 -/

/-- C6 counterexample: the month table also accepts the four-letter
abbreviation `Sept` (the claim allows only full or three-letter names or
numerals, under which `Sept` would be unparseable and default to 06), and a
present year 0 produces no date at all (the claim's year-absent condition
does not cover it, Python falsiness does). -/
theorem C6_counterexample :
    generate_publication_date (some 2021) (some "Sept") none = some "2021-09-15" ∧
    "2021-09-15" ≠ "2021-06-15" ∧
    generate_publication_date (some 0) none none = none := by
  refine ⟨by decide, by decide, by decide⟩

/-- C6 amended: if the year is absent or 0 the date is absent; otherwise the
month accepts the table of full and three-letter month names plus `sept`
(case-insensitively) or a numeric string 1–12, the day accepts a numeric
string 1–31, each defaulting to 06 / 15; when `datetime` would reject the
triple, the day is replaced by the fallback table value (28 for February, 30
for the 30-day months, 31 otherwise), which for any in-range year is
strictly below the parsed day, i.e. a genuine clamp. -/
theorem C6_publication_date_amended :
    (∀ m d, generate_publication_date none m d = none ∧
        generate_publication_date (some 0) m d = none) ∧
    (∀ (y : Int) (m d : Option String), y ≠ 0 →
        generate_publication_date (some y) m d =
          some (toString y ++ "-" ++ two (parseMonthNum m) ++ "-" ++
            two (if dateValid y (parseMonthNum m) (parseDayNum d) then parseDayNum d
                 else lastDayTable (parseMonthNum m)))) ∧
    (∀ (y : Int) (m d : Option String), 1 ≤ y → y ≤ 9999 →
        dateValid y (parseMonthNum m) (parseDayNum d) = false →
          lastDayTable (parseMonthNum m) < parseDayNum d) ∧
    generate_publication_date (some 2021) none none = some "2021-06-15" ∧
    generate_publication_date (some 2020) (some "February") (some "31") =
      some "2020-02-28" ∧
    parseMonthNum (some "February") = 2 ∧ parseMonthNum (some " jUn ") = 6 ∧
    parseMonthNum (some "13") = 6 ∧ parseMonthNum none = 6 ∧
    parseDayNum (some "40") = 15 ∧ parseDayNum none = 15 ∧
    ((List.range 12).all (fun i => parseMonthNum (some (toString (i + 1))) = i + 1)) = true := by
  refine ⟨?_, ?_, ?_, by decide, by decide, by decide, by decide, by decide, by decide,
    by decide, by decide, by decide⟩
  · intro m d
    exact ⟨rfl, by simp [generate_publication_date]⟩
  · intro y m d hy
    simp only [generate_publication_date, if_neg hy]
    by_cases hv : dateValid y (parseMonthNum m) (parseDayNum d) = true
    · rw [if_pos hv, if_pos hv]
    · rw [if_neg hv, if_neg hv]
  · intro y m d hy1 hy2 hvalid
    obtain ⟨hm1, hm2⟩ := parseMonthNum_bounds m
    obtain ⟨hd1, hd2⟩ := parseDayNum_bounds d
    have hdays : daysInMonth y (parseMonthNum m) < parseDayNum d := by
      by_contra hcontr
      push_neg at hcontr
      have : dateValid y (parseMonthNum m) (parseDayNum d) = true := by
        simp only [dateValid, Bool.and_eq_true, decide_eq_true_eq]
        omega
      rw [this] at hvalid
      exact absurd hvalid (by simp)
    have htable : lastDayTable (parseMonthNum m) ≤ daysInMonth y (parseMonthNum m) := by
      unfold lastDayTable daysInMonth
      by_cases h2 : parseMonthNum m = 2
      · rw [if_pos h2, if_pos h2]
        cases isLeapYear y <;> simp
      · rw [if_neg h2, if_neg h2]
    omega

/-- Witness for C6's amended universal parts at concrete inputs. -/
theorem C6_publication_date_amended_witness :
    generate_publication_date (some 1999) (some "dec") (some "7") =
      some (toString (1999 : Int) ++ "-" ++ two (parseMonthNum (some "dec")) ++ "-" ++
        two (if dateValid 1999 (parseMonthNum (some "dec")) (parseDayNum (some "7"))
             then parseDayNum (some "7")
             else lastDayTable (parseMonthNum (some "dec")))) ∧
    lastDayTable (parseMonthNum (some "feb")) < parseDayNum (some "30") := by
  refine ⟨C6_publication_date_amended.2.1 1999 (some "dec") (some "7") (by decide), ?_⟩
  exact C6_publication_date_amended.2.2.1 2023 (some "feb") (some "30")
    (by decide) (by decide) (by decide)

/-! ## Claim C5 -/

theorem takeWhile_until_colon {pre post : List Char}
    (h : ∀ c ∈ pre, c ≠ ':') :
    (pre ++ ':' :: post).takeWhile (fun c => c ≠ ':') = pre := by
  induction pre with
  | nil => simp
  | cons a rest ih =>
    have ha : a ≠ ':' := h a (List.mem_cons_self a rest)
    simp only [List.cons_append, List.takeWhile_cons, decide_eq_true_eq]
    rw [if_pos ha, ih (fun c hc => h c (List.mem_cons_of_mem a hc))]

theorem citationType_val_no_colon (t : CitationType) : ∀ c ∈ t.val.data, c ≠ ':' := by
  cases t <;> decide

/-- C5 counterexample: a url citation's identifier contains colons, so the
constructed id `url:https://example.com` holds two colons, construction
succeeds (the defensive check only demands at least one colon), and the
serialized id is not of the exactly-one-colon shape the claim states. -/
theorem C5_counterexample :
    (convert_entry ["url"] { key := "k", url := some "https://example.com" }).manubot_citation =
      some { id := "url:https://example.com", citation_type := CitationType.url,
             identifier := "https://example.com", title := none, year := none,
             date := none, original_key := "k" } ∧
    "url:https://example.com".data.count ':' = 2 ∧
    (convert_entry ["url"] { key := "k", url := some "https://example.com" }).success = true := by
  refine ⟨by decide, by decide, by decide⟩

/-- C5 amended: every constructed id is `family:identifier` and contains at
least one colon (exactly one arriving before the identifier); the prefix up
to the first colon is the citation's family string, which is never blank;
the defensive validator accepts exactly the ids containing a colon, so
construction of a colon-free id fails; and a serialized citation always
carries the (non-blank) id and the non-blank family string as its type. -/
theorem C5_id_format_amended :
    (∀ (t : CitationType) (ident : String),
        ':' ∈ (t.val ++ ":" ++ ident).data ∧
        ((t.val ++ ":" ++ ident).data.takeWhile (fun c => c ≠ ':')) = t.val.data) ∧
    (∀ (id : String) (t : CitationType) (ident : String) (title : Option String)
        (year : Option Int) (date : Option String) (key : String),
        (':' ∈ id.data → mkManubotCitation id t ident title year date key =
          .ok ⟨id, t, ident, title, year, date, key⟩) ∧
        (':' ∉ id.data → mkManubotCitation id t ident title year date key =
          .error "Manubot ID must contain a colon separator")) ∧
    (∀ (c : ManubotCitation) (journal : Option String) (meta : Bool),
        (toDict c journal meta).id = some c.id ∧
        (toDict c journal meta).type = some c.citation_type.val) ∧
    (∀ t : CitationType, t.val ≠ "") := by
  refine ⟨?_, ?_, ?_, ?_⟩
  · intro t ident
    have hdata : (t.val ++ ":" ++ ident).data = t.val.data ++ ':' :: ident.data := by
      simp [String.data_append]
    rw [hdata]
    constructor
    · exact List.mem_append.mpr (Or.inr (List.mem_cons_self _ _))
    · exact takeWhile_until_colon (citationType_val_no_colon t)
  · intro id t ident title year date key
    constructor
    · intro hc
      unfold mkManubotCitation
      rw [if_pos hc]
    · intro hc
      unfold mkManubotCitation
      rw [if_neg hc]
  · intro c journal meta
    exact ⟨rfl, rfl⟩
  · intro t
    cases t <;> decide

/-- Witness for C5's amended universal parts at concrete values. -/
theorem C5_id_format_amended_witness :
    ':' ∈ ((CitationType.doi).val ++ ":" ++ "10.1234/x").data ∧
    mkManubotCitation "nocolon" CitationType.raw "nocolon" none none none "k" =
      .error "Manubot ID must contain a colon separator" := by
  refine ⟨(C5_id_format_amended.1 CitationType.doi "10.1234/x").1, ?_⟩
  exact (C5_id_format_amended.2.1 "nocolon" CitationType.raw "nocolon"
    none none none "k").2 (by decide)

/-! ## Marking-loop characterization -/

theorem arxivRemoveIds_foldl_mem (citations : List CitDict) (minOv : Nat)
    (x : Option String) :
    ∀ (l : List CitDict) (acc : List (Option String)),
      x ∈ l.foldl
        (fun acc a =>
          if getTitle a = "" then acc
          else if hasPublishedMatch citations minOv a then acc ++ [a.id]
          else acc) acc ↔
      x ∈ acc ∨ ∃ a ∈ l, getTitle a ≠ "" ∧ hasPublishedMatch citations minOv a = true ∧
        a.id = x := by
  intro l
  induction l with
  | nil => intro acc; simp
  | cons a rest ih =>
    intro acc
    rw [List.foldl_cons, ih]
    by_cases hblank : getTitle a = ""
    · rw [if_pos hblank]
      constructor
      · rintro (hacc | hex)
        · exact Or.inl hacc
        · exact Or.inr (by
            obtain ⟨b, hb, h1, h2, h3⟩ := hex
            exact ⟨b, List.mem_cons_of_mem a hb, h1, h2, h3⟩)
      · rintro (hacc | ⟨b, hb, h1, h2, h3⟩)
        · exact Or.inl hacc
        · rcases List.mem_cons.mp hb with rfl | hb2
          · exact absurd hblank h1
          · exact Or.inr ⟨b, hb2, h1, h2, h3⟩
    · rw [if_neg hblank]
      by_cases hmatch : hasPublishedMatch citations minOv a = true
      · rw [if_pos hmatch]
        constructor
        · rintro (hacc | hex)
          · rcases List.mem_append.mp hacc with h1 | h1
            · exact Or.inl h1
            · exact Or.inr ⟨a, List.mem_cons_self a rest, hblank, hmatch,
                (List.mem_singleton.mp h1).symm⟩
          · obtain ⟨b, hb, h1, h2, h3⟩ := hex
            exact Or.inr ⟨b, List.mem_cons_of_mem a hb, h1, h2, h3⟩
        · rintro (hacc | ⟨b, hb, h1, h2, h3⟩)
          · exact Or.inl (List.mem_append.mpr (Or.inl hacc))
          · rcases List.mem_cons.mp hb with rfl | hb2
            · exact Or.inl (List.mem_append.mpr (Or.inr (by simp [h3])))
            · exact Or.inr ⟨b, hb2, h1, h2, h3⟩
      · rw [if_neg hmatch]
        constructor
        · rintro (hacc | hex)
          · exact Or.inl hacc
          · obtain ⟨b, hb, h1, h2, h3⟩ := hex
            exact Or.inr ⟨b, List.mem_cons_of_mem a hb, h1, h2, h3⟩
        · rintro (hacc | ⟨b, hb, h1, h2, h3⟩)
          · exact Or.inl hacc
          · rcases List.mem_cons.mp hb with rfl | hb2
            · exact absurd h2 hmatch
            · exact Or.inr ⟨b, hb2, h1, h2, h3⟩

/-! ## Claim C1 -/

/-- C1: an arXiv citation (publisher equal to the preprint marker `CoRR`)
with a non-blank title is marked for removal exactly when some non-arXiv
citation with a non-blank title shares a consecutive-word run of length at
least `min_overlap`; the output keeps exactly the citations whose id is not
marked, in the original order (a sublist, elements unchanged); on the spec's
example titles a 5-word shared run survives the default threshold 6 while
extending the run to 6 words removes the arXiv entry. -/
theorem C1_duplicate_removal :
    (∀ (citations : List CitDict) (minOv : Nat) (x : Option String),
        x ∈ arxivRemoveIds citations minOv ↔
          ∃ a ∈ citations, isCoRR a = true ∧ getTitle a ≠ "" ∧ a.id = x ∧
            ∃ b ∈ citations, isCoRR b = false ∧ getTitle b ≠ "" ∧
              minOv ≤ find_title_overlap (getTitle a) (getTitle b)) ∧
    (∀ (citations : List CitDict) (minOv : Nat),
        List.Sublist (remove_arxiv_duplicates citations minOv) citations) ∧
    (∀ (citations : List CitDict) (minOv : Nat) (c : CitDict),
        c ∈ remove_arxiv_duplicates citations minOv ↔
          c ∈ citations ∧ ¬ c.id ∈ arxivRemoveIds citations minOv) ∧
    find_title_overlap "Deep Learning for Graph Neural Networks"
      "Deep Learning for Graph Neural Network Applications" = 5 ∧
    remove_arxiv_duplicates
      [{ id := some "arxiv:a", title := some "Deep Learning for Graph Neural Networks",
         publisher := some "CoRR" },
       { id := some "doi:b", title := some "Deep Learning for Graph Neural Network Applications",
         publisher := some "IEEE" }] 6 =
      [{ id := some "arxiv:a", title := some "Deep Learning for Graph Neural Networks",
         publisher := some "CoRR" },
       { id := some "doi:b", title := some "Deep Learning for Graph Neural Network Applications",
         publisher := some "IEEE" }] ∧
    remove_arxiv_duplicates
      [{ id := some "arxiv:a", title := some "Robust Deep Learning for Graph Neural Networks",
         publisher := some "CoRR" },
       { id := some "doi:b",
         title := some "Robust Deep Learning for Graph Neural Network Applications",
         publisher := some "IEEE" }] 6 =
      [{ id := some "doi:b",
         title := some "Robust Deep Learning for Graph Neural Network Applications",
         publisher := some "IEEE" }] := by
  refine ⟨?_, ?_, ?_, by decide, by decide, by decide⟩
  · intro citations minOv x
    unfold arxivRemoveIds
    rw [arxivRemoveIds_foldl_mem]
    simp only [List.mem_filter, List.not_mem_nil, false_or, hasPublishedMatch,
      List.any_eq_true, Bool.and_eq_true, Bool.not_eq_true', decide_eq_true_eq]
    constructor
    · rintro ⟨a, ⟨ha, hcorr⟩, htitle, ⟨b, ⟨hb, hbnot⟩, hbt, hov⟩, hid⟩
      exact ⟨a, ha, hcorr, htitle, hid, b, hb, hbnot, hbt, hov⟩
    · rintro ⟨a, ha, hcorr, htitle, hid, b, hb, hbnot, hbt, hov⟩
      exact ⟨a, ⟨ha, hcorr⟩, htitle, ⟨b, ⟨hb, hbnot⟩, hbt, hov⟩, hid⟩
  · intro citations minOv
    exact List.filter_sublist citations
  · intro citations minOv c
    unfold remove_arxiv_duplicates
    rw [List.mem_filter]
    simp [List.contains_iff_exists_mem_beq]

/-! ## Claim C10 -/

/-- C10: the duplicate filter drops citations by id equality, not by entry
identity: the output excludes every citation whose id equals the id of a
marked arXiv entry, so a non-arXiv citation sharing its id with a removed
arXiv citation is removed as well (third entry of the concrete batch). -/
theorem C10_removal_by_id_equality :
    (∀ (citations : List CitDict) (minOv : Nat) (c : CitDict),
        c ∈ remove_arxiv_duplicates citations minOv ↔
          c ∈ citations ∧ (arxivRemoveIds citations minOv).contains c.id = false) ∧
    remove_arxiv_duplicates
      [{ id := some "arxiv:x", title := some "Robust Deep Learning for Graph Neural Networks",
         publisher := some "CoRR" },
       { id := some "doi:y",
         title := some "Robust Deep Learning for Graph Neural Network Applications",
         publisher := some "IEEE" },
       { id := some "arxiv:x", title := some "A Completely Unrelated Survey",
         publisher := some "Elsevier" }] 6 =
      [{ id := some "doi:y",
         title := some "Robust Deep Learning for Graph Neural Network Applications",
         publisher := some "IEEE" }] := by
  refine ⟨?_, by decide⟩
  intro citations minOv c
  unfold remove_arxiv_duplicates
  rw [List.mem_filter]
  simp [Bool.not_eq_true']

/-! ## Sort-order lemmas -/

/-- Composite sort key, the tuple Python compares. -/
def keyOf (c : CitDict) : Int × List Char := (yearKey c, titleKey c)

theorem lexLE_refl : ∀ l : List Char, lexLE l l = true := by
  intro l
  induction l with
  | nil => rfl
  | cons a as ih => simp [lexLE, lt_irrefl, ih]

theorem lexLE_total : ∀ x y : List Char, lexLE x y = true ∨ lexLE y x = true := by
  intro x
  induction x with
  | nil => intro y; left; rfl
  | cons a as ih =>
    intro y
    cases y with
    | nil => right; rfl
    | cons b bs =>
      rcases lt_trichotomy a b with h | h | h
      · left; simp [lexLE, h]
      · subst h
        rcases ih bs with h2 | h2
        · left; simp [lexLE, lt_irrefl, h2]
        · right; simp [lexLE, lt_irrefl, h2]
      · right; simp [lexLE, h]

theorem lexLE_trans : ∀ {x y z : List Char},
    lexLE x y = true → lexLE y z = true → lexLE x z = true := by
  intro x
  induction x with
  | nil => intro y z _ _; rfl
  | cons a as ih =>
    intro y z hxy hyz
    cases y with
    | nil => simp [lexLE] at hxy
    | cons b bs =>
      cases z with
      | nil => simp [lexLE] at hyz
      | cons c cs =>
        simp only [lexLE] at hxy hyz ⊢
        by_cases hab : a < b
        · by_cases hbc : b < c
          · rw [if_pos (lt_trans hab hbc)]
          · have hcb : ¬ c < b := by
              intro hcontr
              rw [if_neg hbc, if_pos hcontr] at hyz
              exact absurd hyz (by simp)
            have hbceq : b = c := le_antisymm (not_lt.mp hcb) (not_lt.mp hbc)
            subst hbceq
            rw [if_pos hab]
        · by_cases hba : b < a
          · rw [if_neg hab, if_pos hba] at hxy
            exact absurd hxy (by simp)
          · have haeq : a = b := le_antisymm (not_lt.mp hba) (not_lt.mp hab)
            subst haeq
            rw [if_neg (lt_irrefl a), if_neg (lt_irrefl a)] at hxy
            by_cases hac : a < c
            · rw [if_pos hac]
            · have hca : ¬ c < a := by
                intro hcontr
                rw [if_neg hac] at hyz
                rw [if_pos hcontr] at hyz
                exact absurd hyz (by simp)
              rw [if_neg hac, if_neg hca]
              rw [if_neg hac, if_neg hca] at hyz
              exact ih hxy hyz

theorem sortLE_total (a b : CitDict) : sortLE a b = true ∨ sortLE b a = true := by
  by_cases h1 : yearKey a < yearKey b
  · left; simp [sortLE, h1]
  · by_cases h2 : yearKey b < yearKey a
    · right; simp [sortLE, h2]
    · have heq : yearKey a = yearKey b := by omega
      rcases lexLE_total (titleKey a) (titleKey b) with ht | ht
      · left; simp [sortLE, heq, ht]
      · right; simp [sortLE, heq.symm, ht]

theorem sortLE_trans {a b c : CitDict} (hab : sortLE a b = true)
    (hbc : sortLE b c = true) : sortLE a c = true := by
  simp only [sortLE, Bool.or_eq_true, Bool.and_eq_true, decide_eq_true_eq] at *
  rcases hab with h1 | ⟨h1, h2⟩ <;> rcases hbc with h3 | ⟨h3, h4⟩
  · left; omega
  · left; omega
  · left; omega
  · right; exact ⟨by omega, lexLE_trans h2 h4⟩

theorem sortLE_of_keyEq {a b : CitDict} (h : keyOf a = keyOf b) : sortLE a b = true := by
  rw [keyOf, keyOf, Prod.mk.injEq] at h
  simp [sortLE, h.1, h.2, lexLE_refl]

theorem keyNe_of_sortLE_false {a b : CitDict} (h : sortLE a b = false) :
    keyOf a ≠ keyOf b := by
  intro hcontr
  rw [sortLE_of_keyEq hcontr] at h
  exact absurd h (by simp)

theorem mem_insertStable {x a : CitDict} : ∀ {l : List CitDict},
    x ∈ insertStable a l ↔ x = a ∨ x ∈ l := by
  intro l
  induction l with
  | nil => simp [insertStable]
  | cons b rest ih =>
    by_cases h : sortLE a b = true
    · simp only [insertStable, if_pos h, List.mem_cons]
    · simp only [insertStable, if_neg h, List.mem_cons, ih]
      tauto

theorem insertStable_pairwise {a : CitDict} : ∀ {l : List CitDict},
    l.Pairwise (fun x y => sortLE x y = true) →
      (insertStable a l).Pairwise (fun x y => sortLE x y = true) := by
  intro l
  induction l with
  | nil => intro _; simp [insertStable]
  | cons b rest ih =>
    intro hl
    rcases List.pairwise_cons.mp hl with ⟨hb, hrest⟩
    by_cases h : sortLE a b = true
    · rw [insertStable, if_pos h]
      refine List.pairwise_cons.mpr ⟨?_, hl⟩
      intro y hy
      rcases List.mem_cons.mp hy with rfl | hy2
      · exact h
      · exact sortLE_trans h (hb y hy2)
    · rw [insertStable, if_neg h]
      refine List.pairwise_cons.mpr ⟨?_, ih hrest⟩
      intro y hy
      rcases mem_insertStable.mp hy with rfl | hy2
      · rcases sortLE_total y b with h1 | h1
        · exact absurd h1 h
        · exact h1
      · exact hb y hy2

theorem insertStable_perm (a : CitDict) : ∀ (l : List CitDict),
    List.Perm (insertStable a l) (a :: l) := by
  intro l
  induction l with
  | nil => simp [insertStable]
  | cons b rest ih =>
    by_cases h : sortLE a b = true
    · rw [insertStable, if_pos h]
    · rw [insertStable, if_neg h]
      exact List.Perm.trans (List.Perm.cons b ih) (List.Perm.swap a b rest)

theorem insertStable_filter (a : CitDict) (k : Int × List Char) : ∀ (l : List CitDict),
    (insertStable a l).filter (fun c => decide (keyOf c = k)) =
      if keyOf a = k then a :: l.filter (fun c => decide (keyOf c = k))
      else l.filter (fun c => decide (keyOf c = k)) := by
  intro l
  induction l with
  | nil =>
    by_cases h : keyOf a = k
    · rw [if_pos h]; simp [insertStable, List.filter, h]
    · rw [if_neg h]; simp [insertStable, List.filter, h]
  | cons b rest ih =>
    by_cases hab : sortLE a b = true
    · rw [insertStable, if_pos hab]
      by_cases h : keyOf a = k
      · rw [if_pos h]; simp [List.filter_cons, h]
      · rw [if_neg h]; simp [List.filter_cons, h]
    · rw [insertStable, if_neg hab]
      have hkey : keyOf a ≠ keyOf b := keyNe_of_sortLE_false (by simpa using hab)
      by_cases hbk : keyOf b = k
      · have hak : keyOf a ≠ k := fun hcontr => hkey (hcontr.trans hbk.symm)
        rw [if_neg hak]
        have hpb : decide (keyOf b = k) = true := by simp [hbk]
        rw [List.filter_cons, List.filter_cons, hpb]
        simp only [if_true]
        rw [ih, if_neg hak]
      · have hpb : decide (keyOf b = k) = false := by simp [hbk]
        rw [List.filter_cons, List.filter_cons, hpb]
        simp only [Bool.false_eq_true, if_false]
        exact ih

theorem sortCitations_pairwise (l : List CitDict) :
    (sortCitations l).Pairwise (fun x y => sortLE x y = true) := by
  induction l with
  | nil => simp [sortCitations]
  | cons a rest ih => exact insertStable_pairwise ih

theorem sortCitations_perm (l : List CitDict) : List.Perm (sortCitations l) l := by
  induction l with
  | nil => simp [sortCitations]
  | cons a rest ih =>
    have h1 : sortCitations (a :: rest) = insertStable a (sortCitations rest) := rfl
    rw [h1]
    exact List.Perm.trans (insertStable_perm a (sortCitations rest)) (List.Perm.cons a ih)

theorem sortCitations_filter (k : Int × List Char) (l : List CitDict) :
    (sortCitations l).filter (fun c => decide (keyOf c = k)) =
      l.filter (fun c => decide (keyOf c = k)) := by
  induction l with
  | nil => rfl
  | cons a rest ih =>
    have h1 : sortCitations (a :: rest) = insertStable a (sortCitations rest) := rfl
    rw [h1, insertStable_filter, List.filter_cons]
    by_cases h : keyOf a = k
    · rw [if_pos h, ih]
      have : decide (keyOf a = k) = true := by simp [h]
      rw [this]
      simp
    · rw [if_neg h, ih]
      have : decide (keyOf a = k) = false := by simp [h]
      rw [this]
      simp

theorem sortLE_iff {x y : CitDict} :
    sortLE x y = true ↔
      (yearOr0 y < yearOr0 x ∨ (yearOr0 x = yearOr0 y ∧ lexLE (titleKey x) (titleKey y) = true)) := by
  simp only [sortLE, yearKey, Bool.or_eq_true, Bool.and_eq_true, decide_eq_true_eq,
    neg_lt_neg_iff, neg_inj]

/-! ## Claim C7 -/

/-- C7: after duplicate removal the surviving citations are sorted primarily
by descending year (absent year read as 0, sorting last) and secondarily by
ascending lower-cased title; the result is a permutation of the deduplicated
list; the sort is stable (the subsequence of entries with any fixed key is
unchanged); and on the spec's examples years [2019, 2021, 2020] come out as
[2021, 2020, 2019] while two year-2020 entries order by lower-cased title. -/
theorem C7_sort_order :
    (∀ l : List CitDict, (processCitations l).Pairwise (fun x y =>
        yearOr0 y < yearOr0 x ∨ (yearOr0 x = yearOr0 y ∧ lexLE (titleKey x) (titleKey y) = true))) ∧
    (∀ l : List CitDict, List.Perm (processCitations l) (remove_arxiv_duplicates l 6)) ∧
    (∀ (l : List CitDict) (k : Int × List Char),
        (processCitations l).filter (fun c => decide (keyOf c = k)) =
          (remove_arxiv_duplicates l 6).filter (fun c => decide (keyOf c = k))) ∧
    (processCitations
        [{ id := some "a", title := some "Mid", year := some 2019 },
         { id := some "b", title := some "New", year := some 2021 },
         { id := some "c", title := some "Old", year := some 2020 }]).map (fun c => c.year) =
      [some 2021, some 2020, some 2019] ∧
    processCitations
        [{ id := some "a", title := some "Beta", year := some 2020 },
         { id := some "b", title := some "alpha", year := some 2020 }] =
      [{ id := some "b", title := some "alpha", year := some 2020 },
       { id := some "a", title := some "Beta", year := some 2020 }] := by
  refine ⟨?_, ?_, ?_, by decide, by decide⟩
  · intro l
    have h := sortCitations_pairwise (remove_arxiv_duplicates l 6)
    exact List.Pairwise.imp (fun hxy => sortLE_iff.mp hxy) h
  · intro l
    exact sortCitations_perm (remove_arxiv_duplicates l 6)
  · intro l k
    exact sortCitations_filter k (remove_arxiv_duplicates l 6)

/-! ## Validation grammars of the identifier families (claim C3) -/

/-- Grammar `10.\d{4,}/\S+`, full match. -/
def doiGrammar (s : String) : Bool := reTest validateDoiPat s.data

/-- Grammar: 7 or 8 digits. -/
def pmidGrammar (s : String) : Bool :=
  pyIsdigit s.data && 7 ≤ s.data.length && s.data.length ≤ 8

/-- Grammar `PMC\d+`, full match. -/
def pmcidGrammar (s : String) : Bool :=
  s.data.take 3 = ['P', 'M', 'C'] && pyIsdigit (s.data.drop 3)

/-- Grammar: new-style or old-style arXiv identifier, full match. -/
def arxivGrammar (s : String) : Bool := arxivValid s.data

/-- Grammar stated by the spec: exactly 13 digits, or 10 characters that are
9 digits plus a trailing digit or upper-case `X`. -/
def isbnGrammarSpec (s : String) : Bool :=
  (s.data.length = 13 && s.data.all pyDigit) ||
    (s.data.length = 10 && (s.data.take 9).all pyDigit &&
      (pyDigit (s.data.getD 9 ' ') || s.data.getD 9 ' ' = 'X'))

/-- Amended ISBN grammar: the trailing check character may also be the
lower-case `x` produced by the IGNORECASE fallback patterns. -/
def isbnGrammarCI (s : String) : Bool :=
  (s.data.length = 13 && s.data.all pyDigit) ||
    (s.data.length = 10 && (s.data.take 9).all pyDigit &&
      (pyDigit (s.data.getD 9 ' ') || s.data.getD 9 ' ' = 'X' || s.data.getD 9 ' ' = 'x'))

/-! ## Guard lemmas for the extractor cascades -/

theorem orElse_guard {f : Option String} {g : Unit → Option String} {P : String → Prop}
    (hf : ∀ v, f = some v → P v) (hg : ∀ v, g () = some v → P v) :
    ∀ v, f.orElse g = some v → P v := by
  intro v h
  cases f with
  | some w => exact hf v h
  | none => exact hg v h

theorem pmidFromPat_guard {p : Pat} {t : List Char} :
    ∀ v, pmidFromPat p t = some v → pmidGrammar v = true := by
  intro v h
  unfold pmidFromPat at h
  cases hs : reSearch p t with
  | none => rw [hs] at h; exact absurd h (by simp)
  | some cap =>
    rw [hs] at h
    have h2 : (if pmidValid cap = true then some (String.mk cap) else none) = some v := h
    by_cases hg : pmidValid cap = true
    · rw [if_pos hg] at h2
      have hv : v = String.mk cap := (Option.some.inj h2).symm
      rw [hv]
      exact hg
    · rw [if_neg hg] at h2; exact absurd h2 (by simp)

theorem pmcFromPat_guard {p : Pat} {t : List Char} :
    ∀ v, pmcFromPat p t = some v → pmcidGrammar v = true := by
  intro v h
  unfold pmcFromPat at h
  cases hs : reSearch p t with
  | none => rw [hs] at h; exact absurd h (by simp)
  | some cap =>
    rw [hs] at h
    have h2 : (if pmcidValid (cap.map Char.toUpper) = true
        then some (String.mk (cap.map Char.toUpper)) else none) = some v := h
    by_cases hg : pmcidValid (cap.map Char.toUpper) = true
    · rw [if_pos hg] at h2
      have hv : v = String.mk (cap.map Char.toUpper) := (Option.some.inj h2).symm
      rw [hv]
      exact hg
    · rw [if_neg hg] at h2; exact absurd h2 (by simp)

theorem arxFromPat_guard {p : Pat} {t : List Char} :
    ∀ v, arxFromPat p t = some v → arxivGrammar v = true := by
  intro v h
  unfold arxFromPat at h
  cases hs : reSearch p t with
  | none => rw [hs] at h; exact absurd h (by simp)
  | some cap =>
    rw [hs] at h
    have h2 : (if arxivValid cap = true then some (String.mk cap) else none) = some v := h
    by_cases hg : arxivValid cap = true
    · rw [if_pos hg] at h2
      have hv : v = String.mk cap := (Option.some.inj h2).symm
      rw [hv]
      exact hg
    · rw [if_neg hg] at h2; exact absurd h2 (by simp)

theorem extract_pmid_grammar {text : String} :
    ∀ v, extract_pmid text = some v → pmidGrammar v = true := by
  unfold extract_pmid
  by_cases he : text = ""
  · rw [if_pos he]; intro v h; exact absurd h (by simp)
  · rw [if_neg he]
    exact orElse_guard pmidFromPat_guard (orElse_guard pmidFromPat_guard
      (orElse_guard pmidFromPat_guard pmidFromPat_guard))

theorem extract_pmcid_grammar {text : String} :
    ∀ v, extract_pmcid text = some v → pmcidGrammar v = true := by
  unfold extract_pmcid
  by_cases he : text = ""
  · rw [if_pos he]; intro v h; exact absurd h (by simp)
  · rw [if_neg he]
    exact orElse_guard pmcFromPat_guard (orElse_guard pmcFromPat_guard
      (orElse_guard pmcFromPat_guard pmcFromPat_guard))

theorem extract_arxiv_grammar {text : String} :
    ∀ v, extract_arxiv_id text = some v → arxivGrammar v = true := by
  unfold extract_arxiv_id
  by_cases he : text = ""
  · rw [if_pos he]; intro v h; exact absurd h (by simp)
  · rw [if_neg he]
    exact orElse_guard arxFromPat_guard (orElse_guard arxFromPat_guard
      (orElse_guard arxFromPat_guard (orElse_guard arxFromPat_guard
        (orElse_guard arxFromPat_guard arxFromPat_guard))))

/-! ## Language facts for the DOI and ISBN capture groups -/

theorem Lang_litList : ∀ (cs : List Char) (t : List Char),
    Lang (reSeq (cs.map RE.lit)) t ↔ t = cs := by
  intro cs
  induction cs with
  | nil => intro t; simp [reSeq, Lang]
  | cons c rest ih =>
    intro t
    constructor
    · intro h
      obtain ⟨t1, t2, rfl, h1, h2⟩ := h
      rw [show t1 = [c] from h1, (ih t2).mp h2]
      rfl
    · rintro rfl
      exact ⟨[c], rest, rfl, rfl, (ih rest).mpr rfl⟩

theorem REChars_doiCapture : REChars (fun c => pySpace c = false) doiCaptureRE := by
  refine ⟨⟨(by decide : pySpace '1' = false), (by decide : pySpace '0' = false),
      (by decide : pySpace '.' = false), trivial⟩,
    fun a ha => pyDigit_not_space ha, (by decide : pySpace '/' = false),
    fun a ha => ?_, trivial⟩
  simp only [nonSpaceCommaBrace, Bool.and_eq_true, Bool.not_eq_true'] at ha
  exact ha.1.1

theorem doiFromPat_grammar {p : Pat} (hgrp : p.grp = doiCaptureRE) {t : List Char} :
    ∀ v, doiFromPat p t = some v → doiGrammar v = true := by
  intro v h
  unfold doiFromPat at h
  cases hs : reSearch p t with
  | none => rw [hs] at h; exact absurd h (by simp)
  | some cap =>
    rw [hs] at h
    have h2 : (if validate_doi (String.mk (dropTrailing trailPunct cap))
        then some (String.mk (dropTrailing trailPunct cap)) else none) = some v := h
    by_cases hg : validate_doi (String.mk (dropTrailing trailPunct cap)) = true
    · rw [if_pos hg] at h2
      have hv : v = String.mk (dropTrailing trailPunct cap) := (Option.some.inj h2).symm
      subst hv
      have hlang : Lang doiCaptureRE cap := hgrp ▸ reSearch_sound hs
      have hchars : ∀ c ∈ cap, pySpace c = false :=
        Lang_chars REChars_doiCapture hlang
      have hchars2 : ∀ c ∈ dropTrailing trailPunct cap, pySpace c = false :=
        fun c hc => hchars c (mem_dropTrailing hc)
      have hstrip : stripL (dropTrailing trailPunct cap) = dropTrailing trailPunct cap :=
        stripL_eq_self hchars2
      unfold validate_doi at hg
      by_cases hemp : String.mk (dropTrailing trailPunct cap) = ""
      · rw [if_pos hemp] at hg; exact absurd hg (by simp)
      · rw [if_neg hemp] at hg
        show reTest validateDoiPat (dropTrailing trailPunct cap) = true
        rw [← hstrip]
        exact hg
    · rw [if_neg hg] at h2; exact absurd h2 (by simp)

theorem extract_doi_grammar {text : String} :
    ∀ v, extract_doi text = some v → doiGrammar v = true := by
  unfold extract_doi
  by_cases he : text = ""
  · rw [if_pos he]; intro v h; exact absurd h (by simp)
  · rw [if_neg he]
    exact orElse_guard (doiFromPat_grammar rfl) (orElse_guard (doiFromPat_grammar rfl)
      (orElse_guard (doiFromPat_grammar rfl) (doiFromPat_grammar rfl)))

theorem isbn13_shape {t : List Char}
    (h : Lang (reSeq [strLit "978", RE.repCls pyDigit 10 10]) t) :
    t.length = 13 ∧ t.all pyDigit = true := by
  obtain ⟨t1, t2, rfl, h1, h2⟩ := h
  obtain ⟨t3, t4, rfl, h3, h4⟩ := h2
  have ht1 : t1 = ['9', '7', '8'] := (Lang_litList _ _).mp h1
  have ht4 : t4 = [] := h4
  obtain ⟨hlo, hhi, hdig⟩ := h3
  subst ht1 ht4
  have hlen : t3.length = 10 := le_antisymm hhi hlo
  constructor
  · simp [hlen]
  · apply List.all_eq_true.mpr
    intro c hc
    simp only [List.append_nil, List.append_assoc, List.mem_append, List.mem_cons,
      List.not_mem_nil, or_false] at hc
    rcases hc with (rfl | rfl | rfl) | hc
    · decide
    · decide
    · decide
    · exact hdig c hc

theorem isbn10_shape {t : List Char}
    (h : Lang (reSeq [RE.repCls pyDigit 9 9, RE.cls digitOrXCI]) t) :
    t.length = 10 ∧ (t.take 9).all pyDigit = true ∧
      (pyDigit (t.getD 9 ' ') || t.getD 9 ' ' = 'X' || t.getD 9 ' ' = 'x') = true := by
  obtain ⟨t1, t2, rfl, h1, h2⟩ := h
  obtain ⟨t3, t4, rfl, h3, h4⟩ := h2
  obtain ⟨a, rfl, hfa⟩ := h3
  have ht4 : t4 = [] := h4
  subst ht4
  obtain ⟨hlo, hhi, hdig⟩ := h1
  have hlen : t1.length = 9 := le_antisymm hhi hlo
  refine ⟨by simp [hlen], ?_, ?_⟩
  · have htake : (t1 ++ ([a] ++ [])).take 9 = t1 := by
      rw [← hlen]
      exact List.take_left _ _
    rw [htake]
    exact List.all_eq_true.mpr hdig
  · have hget : (t1 ++ ([a] ++ [])).getD 9 ' ' = a := by
      rw [List.getD_append_right _ _ _ _ (by omega)]
      simp [hlen]
    rw [hget]
    simpa [digitOrXCI] using hfa

theorem isbnPat13_sound {p : Pat}
    (hgrp : p.grp = reSeq [strLit "978", RE.repCls pyDigit 10 10]) {t : List Char} :
    ∀ v, (reSearch p t).map String.mk = some v → isbnGrammarCI v = true := by
  intro v h
  cases hs : reSearch p t with
  | none => rw [hs] at h; exact absurd h (by simp)
  | some cap =>
    rw [hs] at h
    have hv : v = String.mk cap := (Option.some.inj h).symm
    subst hv
    obtain ⟨hlen, hall⟩ := isbn13_shape (hgrp ▸ reSearch_sound hs)
    unfold isbnGrammarCI
    apply Bool.or_eq_true_iff.mpr
    left
    show ((cap.length = 13 : Bool) && cap.all pyDigit) = true
    simp [hlen, hall]

theorem isbnPat10_sound {p : Pat}
    (hgrp : p.grp = reSeq [RE.repCls pyDigit 9 9, RE.cls digitOrXCI]) {t : List Char} :
    ∀ v, (reSearch p t).map String.mk = some v → isbnGrammarCI v = true := by
  intro v h
  cases hs : reSearch p t with
  | none => rw [hs] at h; exact absurd h (by simp)
  | some cap =>
    rw [hs] at h
    have hv : v = String.mk cap := (Option.some.inj h).symm
    subst hv
    obtain ⟨hlen, htake, hlast⟩ := isbn10_shape (hgrp ▸ reSearch_sound hs)
    unfold isbnGrammarCI
    apply Bool.or_eq_true_iff.mpr
    right
    show ((cap.length = 10 : Bool) && (cap.take 9).all pyDigit &&
      (pyDigit (cap.getD 9 ' ') || cap.getD 9 ' ' = 'X' || cap.getD 9 ' ' = 'x')) = true
    simp only [Bool.and_eq_true, Bool.or_eq_true, decide_eq_true_eq]
    refine ⟨⟨hlen, htake⟩, ?_⟩
    simpa only [Bool.or_eq_true, decide_eq_true_eq] using hlast

theorem extract_isbn_grammar {text : String} :
    ∀ v, extract_isbn text = some v → isbnGrammarCI v = true := by
  unfold extract_isbn
  by_cases he : text = ""
  · rw [if_pos he]; intro v h; exact absurd h (by simp)
  · rw [if_neg he]
    by_cases h13 : ((isbnClean text).length = 13 && pyIsdigit (isbnClean text)) = true
    · rw [if_pos h13]
      intro v h
      have hv : v = String.mk (isbnClean text) := (Option.some.inj h).symm
      subst hv
      simp only [Bool.and_eq_true, decide_eq_true_eq, pyIsdigit] at h13
      unfold isbnGrammarCI
      apply Bool.or_eq_true_iff.mpr
      left
      simp only [Bool.and_eq_true, decide_eq_true_eq]
      exact ⟨h13.1, h13.2.2⟩
    · rw [if_neg h13]
      by_cases h10 : ((isbnClean text).length = 10 &&
          pyIsdigit ((isbnClean text).take 9) &&
          (pyDigit ((isbnClean text).getD 9 ' ') || (isbnClean text).getD 9 ' ' = 'X')) = true
      · rw [if_pos h10]
        intro v h
        have hv : v = String.mk (isbnClean text) := (Option.some.inj h).symm
        subst hv
        simp only [Bool.and_eq_true, Bool.or_eq_true, decide_eq_true_eq, pyIsdigit] at h10
        unfold isbnGrammarCI
        apply Bool.or_eq_true_iff.mpr
        right
        simp only [Bool.and_eq_true, Bool.or_eq_true, decide_eq_true_eq]
        exact ⟨⟨h10.1.1, h10.1.2.2⟩, Or.inl h10.2⟩
      · rw [if_neg h10]
        exact orElse_guard (isbnPat13_sound rfl) (orElse_guard (isbnPat10_sound rfl)
          (orElse_guard (isbnPat13_sound rfl) (isbnPat10_sound rfl)))

/-! ## Claim C3 -/

/-- C3 counterexample: the ISBN fallback patterns are compiled with
IGNORECASE and search the original (un-uppercased) text, so a lower-case
check character `x` can be returned, which does not satisfy the claimed
grammar (trailing upper-case `X`). -/
theorem C3_counterexample :
    extract_isbn "12 030640615x 99" = some "030640615x" ∧
    isbnGrammarSpec "030640615x" = false := by
  refine ⟨by decide, by decide⟩

/-- C3 amended: every extractor is total (modelled as a Lean function, it
cannot raise) and returns either no match or a value satisfying its family's
validation grammar — `10.\d{4,}/\S+` for doi, 7–8 digits for pmid, `PMC\d+`
for pmcid, new-style or old-style identifiers for arXiv — while for isbn the
value is 13 digits or 10 characters of 9 digits plus a digit or an upper- or
lower-case `X` check character (the lower-case form arises from the
IGNORECASE fallback patterns). -/
theorem C3_extractor_grammars_amended :
    (∀ (text : String) (v : String), extract_doi text = some v → doiGrammar v = true) ∧
    (∀ (text : String) (v : String), extract_pmid text = some v → pmidGrammar v = true) ∧
    (∀ (text : String) (v : String), extract_pmcid text = some v → pmcidGrammar v = true) ∧
    (∀ (text : String) (v : String), extract_arxiv_id text = some v → arxivGrammar v = true) ∧
    (∀ (text : String) (v : String), extract_isbn text = some v → isbnGrammarCI v = true) := by
  exact ⟨fun _ => extract_doi_grammar, fun _ => extract_pmid_grammar,
    fun _ => extract_pmcid_grammar, fun _ => extract_arxiv_grammar,
    fun _ => extract_isbn_grammar⟩

/-- Witness for C3's amended postconditions at concrete extractions of each
family. -/
theorem C3_extractor_grammars_amended_witness :
    doiGrammar "10.1234/example" = true ∧
    pmidGrammar "1234567" = true ∧
    pmcidGrammar "PMC123" = true ∧
    arxivGrammar "2301.12345" = true ∧
    isbnGrammarCI "9780306406157" = true := by
  refine ⟨C3_extractor_grammars_amended.1 "10.1234/example" _ (by decide),
    C3_extractor_grammars_amended.2.1 "pmid: 1234567" _ (by decide),
    C3_extractor_grammars_amended.2.2.1 "PMC123" _ (by decide),
    C3_extractor_grammars_amended.2.2.2.1 "arXiv:2301.12345" _ (by decide),
    C3_extractor_grammars_amended.2.2.2.2 "978-0-306-40615-7" _ (by decide)⟩

end B2M
